import Mathlib

/-!
# Verification of the IDA ETL pipeline (ANATEL customer-service index data mart)

Shallow embedding, in Lean 4, of the core of `etl_ida_sysint.py` /
`python_etl_ida.py`: header-row location in a raw spreadsheet grid,
forward-fill of the economic-group column, month-column classification,
cell-value parsing, the MD5 content hash of a normalized record, and the
PostgreSQL loader (dimension ensure + batched fact insertion with
`ON CONFLICT (hash_registro) DO NOTHING`) together with the pipeline
orchestrator's error isolation.

Modelling conventions:
* Python machine floats are modelled as exact rationals (`ℚ`); the textual
  rendering used inside the content hash is modelled by an injective
  rendering of the rational, mirroring the fact that Python's `repr` is
  injective on distinct doubles.  No claim depends on the concrete digits.
* Python strings are Lean `String`s; `str.strip()`, `str.upper()`,
  `int(str)` and `float(str)` are modelled on ASCII data (unicode digit
  classes and numeric-literal underscores are not modelled; no claim
  exercises them).
* The database is a pure `Store` value; every SQL statement of the loader is
  modelled by a pure state transformation, and a database fault is injected
  through an explicit failure oracle.
-/

set_option autoImplicit false

namespace IDA

/-! ## Python text primitives -/

/-- Whitespace as stripped by Python `str.strip()` (ASCII fragment). -/
def isPySpace (c : Char) : Bool :=
  c.toNat = 32 || c.toNat = 9 || c.toNat = 10 || c.toNat = 13 || c.toNat = 11 || c.toNat = 12

/-- `str.strip()` on the character list: drop whitespace at both ends. -/
def stripChars (l : List Char) : List Char :=
  ((l.dropWhile isPySpace).reverse.dropWhile isPySpace).reverse

/-- Model of Python `str.strip()`. -/
def pyStrip (s : String) : String := String.mk (stripChars s.data)

/-- Model of Python `str.upper()` (ASCII fragment). -/
def pyUpper (s : String) : String := String.mk (s.data.map Char.toUpper)

/-- Decimal digits of a natural number, most significant first
(fuel-based structural recursion so that the kernel can evaluate it;
`natDigits` supplies enough fuel for the fuel never to run out). -/
def natDigitsAux (fuel : Nat) (n : Nat) : List Char :=
  match fuel with
  | 0 => []
  | fuel + 1 =>
    if n < 10 then [Char.ofNat (48 + n)]
    else natDigitsAux fuel (n / 10) ++ [Char.ofNat (48 + n % 10)]

def natDigits (n : Nat) : List Char := natDigitsAux (n + 1) n

theorem natDigitsAux_fuel {f1 f2 n : Nat} (h1 : n < f1) (h2 : n < f2) :
    natDigitsAux f1 n = natDigitsAux f2 n := by
  induction n using Nat.strong_induction_on generalizing f1 f2 with
  | _ n ih =>
    match f1, f2 with
    | g1 + 1, g2 + 1 =>
      by_cases hn : n < 10
      · simp [natDigitsAux, hn]
      · have hdiv : n / 10 < n := Nat.div_lt_self (by omega) (by omega)
        have hg1 : n / 10 < g1 := by omega
        have hg2 : n / 10 < g2 := by omega
        simp only [natDigitsAux, if_neg hn]
        rw [ih (n / 10) hdiv hg1 hg2]

/-- The recursion equation of `natDigits`, independent of the fuel. -/
theorem natDigits_eq (n : Nat) :
    natDigits n = if n < 10 then [Char.ofNat (48 + n)]
      else natDigits (n / 10) ++ [Char.ofNat (48 + n % 10)] := by
  have unfold1 : natDigits n
      = if n < 10 then [Char.ofNat (48 + n)]
        else natDigitsAux n (n / 10) ++ [Char.ofNat (48 + n % 10)] := rfl
  rw [unfold1]
  by_cases hn : n < 10
  · rw [if_pos hn, if_pos hn]
  · rw [if_neg hn, if_neg hn,
      natDigitsAux_fuel (Nat.div_lt_self (by omega) (by omega)) (Nat.lt_succ_self (n / 10))]
    rfl

/-- Numeric value of a (big-endian) digit string. -/
def digitsVal (l : List Char) : Nat :=
  l.foldl (fun a c => 10 * a + (c.toNat - 48)) 0

theorem toNat_ofNat_digit (m : Nat) (hm : m < 10) :
    (Char.ofNat (48 + m)).toNat = 48 + m := by
  interval_cases m <;> decide

theorem digitsVal_append_last (l : List Char) (c : Char) :
    digitsVal (l ++ [c]) = 10 * digitsVal l + (c.toNat - 48) := by
  simp [digitsVal]

theorem digitsVal_natDigits (n : Nat) : digitsVal (natDigits n) = n := by
  induction n using Nat.strong_induction_on with
  | _ n ih =>
    rw [natDigits_eq]
    by_cases hn : n < 10
    · simp [if_pos hn, digitsVal, toNat_ofNat_digit n hn]
    · have hdiv : n / 10 < n := Nat.div_lt_self (by omega) (by omega)
      rw [if_neg hn, digitsVal_append_last, ih (n / 10) hdiv,
        toNat_ofNat_digit (n % 10) (Nat.mod_lt n (by omega))]
      omega

theorem natDigits_inj {a b : Nat} (h : natDigits a = natDigits b) : a = b := by
  rw [← digitsVal_natDigits a, ← digitsVal_natDigits b, h]

theorem ofNat_digit_isDigit (m : Nat) (hm : m < 10) :
    (Char.ofNat (48 + m)).isDigit = true := by
  interval_cases m <;> decide

theorem natDigits_ne_nil (n : Nat) : natDigits n ≠ [] := by
  rw [natDigits_eq]
  split <;> simp

theorem mem_natDigits_isDigit (n : Nat) : ∀ c ∈ natDigits n, c.isDigit = true := by
  induction n using Nat.strong_induction_on with
  | _ n ih =>
    rw [natDigits_eq]
    by_cases hn : n < 10
    · rw [if_pos hn]
      intro c hc
      rw [List.mem_singleton] at hc
      subst hc
      exact ofNat_digit_isDigit n hn
    · have hdiv : n / 10 < n := Nat.div_lt_self (by omega) (by omega)
      rw [if_neg hn]
      intro c hc
      rcases List.mem_append.mp hc with hc1 | hc2
      · exact ih (n / 10) hdiv c hc1
      · rw [List.mem_singleton] at hc2
        subst hc2
        exact ofNat_digit_isDigit (n % 10) (Nat.mod_lt n (by omega))

/-- Decimal rendering of an integer (Python `str` of an `int`). -/
def intRepr : Int → List Char
  | .ofNat n => natDigits n
  | .negSucc m => '-' :: natDigits (m + 1)

theorem mem_intRepr (i : Int) : ∀ c ∈ intRepr i, c.isDigit = true ∨ c = '-' := by
  cases i with
  | ofNat n => exact fun c hc => Or.inl (mem_natDigits_isDigit n c hc)
  | negSucc m =>
      intro c hc
      rcases List.mem_cons.mp hc with rfl | hc2
      · exact Or.inr rfl
      · exact Or.inl (mem_natDigits_isDigit (m + 1) c hc2)

theorem intRepr_inj {a b : Int} (h : intRepr a = intRepr b) : a = b := by
  cases a with
  | ofNat n =>
      cases b with
      | ofNat n' => simpa using congrArg Int.ofNat (natDigits_inj (by simpa [intRepr] using h))
      | negSucc m' =>
          exfalso
          have : '-' ∈ natDigits n := by
            rw [show natDigits n = intRepr (Int.ofNat n) from rfl, h]
            exact List.mem_cons_self _ _
          have := mem_natDigits_isDigit n '-' this
          simp [Char.isDigit] at this
  | negSucc m =>
      cases b with
      | ofNat n' =>
          exfalso
          have : '-' ∈ natDigits n' := by
            rw [show natDigits n' = intRepr (Int.ofNat n') from rfl, ← h]
            exact List.mem_cons_self _ _
          have := mem_natDigits_isDigit n' '-' this
          simp [Char.isDigit] at this
      | negSucc m' =>
          have h2 : natDigits (m + 1) = natDigits (m' + 1) := by
            simpa [intRepr] using h
          have h3 := natDigits_inj h2
          have h4 : m = m' := by omega
          rw [h4]

/-- Model of Python `int(str)`: optional surrounding whitespace, optional
sign, then one or more ASCII digits (digit-group underscores are not
modelled; no claim involves them). -/
def pyIntDigits (l : List Char) : Option Nat :=
  if l ≠ [] ∧ l.all Char.isDigit then some (digitsVal l) else none

def pyIntChars (l : List Char) : Option Int :=
  match stripChars l with
  | [] => none
  | c :: cs =>
    if c = '+' then (pyIntDigits cs).map Int.ofNat
    else if c = '-' then (pyIntDigits cs).map (fun n => -(n : Int))
    else (pyIntDigits (c :: cs)).map Int.ofNat

def pyInt (s : String) : Option Int := pyIntChars s.data

/-! ## Python floats

A Python `float` value, as far as the pipeline observes it: a finite value
(modelled exactly as a rational -- IEEE rounding is abstracted away, which is
irrelevant here because no claim depends on the binary rounding of a decimal
literal), the two infinities, or NaN. -/

inductive PyFloat
  | finite (q : ℚ)
  | inf
  | ninf
  | nan
deriving DecidableEq

/-- `10 ^ e` for a possibly negative exponent, in `ℚ`. -/
def qpow10 : Int → ℚ
  | .ofNat n => (10 : ℚ) ^ n
  | .negSucc m => 1 / (10 : ℚ) ^ (m + 1)

def spanDigits (l : List Char) : List Char × List Char :=
  (l.takeWhile Char.isDigit, l.dropWhile Char.isDigit)

/-- Optional exponent suffix of a Python float literal (`e`/`E`, optional
sign, digits); `[]` means "no exponent", anything unparseable is a failure. -/
def parseExp : List Char → Option Int
  | [] => some 0
  | c :: rest =>
    if c = 'e' ∨ c = 'E' then
      match rest with
      | '+' :: ds => (pyIntDigits ds).map Int.ofNat
      | '-' :: ds => (pyIntDigits ds).map (fun n => -(n : Int))
      | ds => (pyIntDigits ds).map Int.ofNat
    else none

/-- Unsigned decimal part of a Python float literal:
`digits [ '.' digits ] [exp]` or `'.' digits [exp]`. -/
def parseUnsignedFloat (l : List Char) : Option ℚ :=
  let ip := (spanDigits l).1
  match (spanDigits l).2 with
  | '.' :: r2 =>
    let fp := (spanDigits r2).1
    if ip = [] ∧ fp = [] then none
    else
      (parseExp (spanDigits r2).2).map
        (fun e => ((digitsVal (ip ++ fp) : ℚ) / (10 : ℚ) ^ fp.length) * qpow10 e)
  | r1 =>
    if ip = [] then none
    else (parseExp r1).map (fun e => (digitsVal ip : ℚ) * qpow10 e)

/-- Body of a Python float literal after the optional sign. -/
def parseFloatBody (l : List Char) (neg : Bool) : Option PyFloat :=
  let low := l.map Char.toLower
  if low = "inf".data ∨ low = "infinity".data then
    some (if neg then .ninf else .inf)
  else if low = "nan".data then some .nan
  else (parseUnsignedFloat l).map (fun q => .finite (if neg then -q else q))

/-- Model of Python `float(str)`: surrounding whitespace, optional sign, then
an `inf`/`infinity`/`nan` word (case-insensitive) or a decimal literal with
optional exponent (digit-group underscores are not modelled). -/
def pyFloatOfString (s : String) : Option PyFloat :=
  match stripChars s.data with
  | [] => none
  | '+' :: rest => parseFloatBody rest false
  | '-' :: rest => parseFloatBody rest true
  | l => parseFloatBody l false

/-- Rendering of a rational used inside the content hash.  Python renders the
float field with `repr`, which is injective on distinct doubles; the model
keeps exactly that property (injectivity, no `'|'` in the output) with a
`num/den` rendering -- the concrete digits are not load-bearing anywhere. -/
def ratRepr (q : ℚ) : String := String.mk (intRepr q.num ++ '/' :: natDigits q.den)

/-- Rendering of a `PyFloat` (model of Python `str`/`repr` of the value). -/
def pyFloatRepr : PyFloat → String
  | .finite q => ratRepr q
  | .inf => "inf"
  | .ninf => "-inf"
  | .nan => "nan"

theorem slash_not_mem_intRepr (i : Int) : '/' ∉ intRepr i := by
  intro hmem
  rcases mem_intRepr i '/' hmem with h | h
  · simp [Char.isDigit] at h
  · exact absurd h (by decide)

theorem cons_slash_inj {u v x y : List Char}
    (hu : '/' ∉ u) (hv : '/' ∉ v)
    (h : u ++ '/' :: x = v ++ '/' :: y) : u = v ∧ x = y := by
  induction u generalizing v with
  | nil =>
      cases v with
      | nil => simpa using h
      | cons b bs =>
          exfalso
          simp only [List.nil_append, List.cons_append, List.cons.injEq] at h
          exact hv (h.1 ▸ List.mem_cons_self _ _)
  | cons a as ih =>
      cases v with
      | nil =>
          exfalso
          simp only [List.cons_append, List.nil_append, List.cons.injEq] at h
          exact hu (h.1 ▸ List.mem_cons_self _ _)
      | cons b bs =>
          simp only [List.cons_append, List.cons.injEq] at h
          obtain ⟨rfl, h2⟩ := h
          have hu2 : '/' ∉ as := fun hx => hu (List.mem_cons_of_mem _ hx)
          have hv2 : '/' ∉ bs := fun hx => hv (List.mem_cons_of_mem _ hx)
          obtain ⟨rfl, rfl⟩ := ih hu2 hv2 h2
          exact ⟨rfl, rfl⟩

theorem ratRepr_inj {p q : ℚ} (h : ratRepr p = ratRepr q) : p = q := by
  have hdata : intRepr p.num ++ '/' :: natDigits p.den
      = intRepr q.num ++ '/' :: natDigits q.den := by
    simpa [ratRepr] using congrArg String.data h
  obtain ⟨h1, h2⟩ :=
    cons_slash_inj (slash_not_mem_intRepr p.num) (slash_not_mem_intRepr q.num) hdata
  exact Rat.ext (intRepr_inj h1) (natDigits_inj h2)

theorem slash_mem_ratRepr (q : ℚ) : '/' ∈ (ratRepr q).data := by
  simp [ratRepr]

/-! ## Chunking a list into fixed-size batches

Models both the 64-byte block split of MD5 and the
`records[i:i + batch_size]` batch split of the loader.  Fuel-based
structural recursion (fuel = initial length) so the kernel can evaluate it;
`bs = 0` yields the whole list as one chunk (in Python, `range` with step 0
raises, a case excluded by hypothesis wherever it matters). -/

def chunkListAux {α : Type} (bs : Nat) : Nat → List α → List (List α)
  | _, [] => []
  | 0, l => [l]
  | fuel + 1, l =>
    if bs = 0 then [l] else l.take bs :: chunkListAux bs fuel (l.drop bs)

def chunkList {α : Type} (bs : Nat) (l : List α) : List (List α) :=
  chunkListAux bs l.length l

theorem chunkListAux_join {α : Type} (bs : Nat) :
    ∀ (fuel : Nat) (l : List α), l.length ≤ fuel → (chunkListAux bs fuel l).flatten = l := by
  intro fuel
  induction fuel with
  | zero =>
      intro l hl
      match l with
      | [] => rfl
  | succ fuel ih =>
      intro l hl
      match l with
      | [] => rfl
      | a :: as =>
          show (if bs = 0 then [a :: as]
            else (a :: as).take bs :: chunkListAux bs fuel ((a :: as).drop bs)).flatten = a :: as
          by_cases hbs : bs = 0
          · rw [if_pos hbs]
            simp
          · rw [if_neg hbs]
            have hlen : ((a :: as).drop bs).length ≤ fuel := by
              rw [List.length_drop]
              simp only [List.length_cons] at hl ⊢
              omega
            simp only [List.flatten_cons, ih _ hlen]
            exact List.take_append_drop bs (a :: as)

theorem chunkList_join {α : Type} (bs : Nat) (l : List α) :
    (chunkList bs l).flatten = l :=
  chunkListAux_join bs l.length l (Nat.le_refl _)

/-! ## UTF-8 and MD5 (RFC 1321)

`DataRecord.generate_hash` computes `hashlib.md5(content.encode()).hexdigest()`.
The MD5 compression function is implemented below over `Nat` with explicit
`% 2 ^ 32`; bytes are `Nat`s below 256. -/

/-- UTF-8 encoding of one character (the `str.encode()` model). -/
def charUtf8 (c : Char) : List Nat :=
  let n := c.toNat
  if n < 128 then [n]
  else if n < 2048 then [192 + n / 64, 128 + n % 64]
  else if n < 65536 then [224 + n / 4096, 128 + (n / 64) % 64, 128 + n % 64]
  else [240 + n / 262144, 128 + (n / 4096) % 64, 128 + (n / 64) % 64, 128 + n % 64]

/-- UTF-8 bytes of a string (model of Python `str.encode()`). -/
def utf8Bytes (s : String) : List Nat := s.data.flatMap charUtf8

/-- The 64 MD5 sine-derived constants. -/
def md5K : List Nat :=
  [0xd76aa478, 0xe8c7b756, 0x242070db, 0xc1bdceee,
   0xf57c0faf, 0x4787c62a, 0xa8304613, 0xfd469501,
   0x698098d8, 0x8b44f7af, 0xffff5bb1, 0x895cd7be,
   0x6b901122, 0xfd987193, 0xa679438e, 0x49b40821,
   0xf61e2562, 0xc040b340, 0x265e5a51, 0xe9b6c7aa,
   0xd62f105d, 0x02441453, 0xd8a1e681, 0xe7d3fbc8,
   0x21e1cde6, 0xc33707d6, 0xf4d50d87, 0x455a14ed,
   0xa9e3e905, 0xfcefa3f8, 0x676f02d9, 0x8d2a4c8a,
   0xfffa3942, 0x8771f681, 0x6d9d6122, 0xfde5380c,
   0xa4beea44, 0x4bdecfa9, 0xf6bb4b60, 0xbebfbc70,
   0x289b7ec6, 0xeaa127fa, 0xd4ef3085, 0x04881d05,
   0xd9d4d039, 0xe6db99e5, 0x1fa27cf8, 0xc4ac5665,
   0xf4292244, 0x432aff97, 0xab9423a7, 0xfc93a039,
   0x655b59c3, 0x8f0ccc92, 0xffeff47d, 0x85845dd1,
   0x6fa87e4f, 0xfe2ce6e0, 0xa3014314, 0x4e0811a1,
   0xf7537e82, 0xbd3af235, 0x2ad7d2bb, 0xeb86d391]

/-- The 64 MD5 per-round left-rotation amounts. -/
def md5S : List Nat :=
  [7, 12, 17, 22, 7, 12, 17, 22, 7, 12, 17, 22, 7, 12, 17, 22,
   5, 9, 14, 20, 5, 9, 14, 20, 5, 9, 14, 20, 5, 9, 14, 20,
   4, 11, 16, 23, 4, 11, 16, 23, 4, 11, 16, 23, 4, 11, 16, 23,
   6, 10, 15, 21, 6, 10, 15, 21, 6, 10, 15, 21, 6, 10, 15, 21]

/-- 32-bit left rotation on `Nat`. -/
def rotl32 (x s : Nat) : Nat :=
  ((x <<< s) % 4294967296) ||| ((x % 4294967296) >>> (32 - s))

/-- 32-bit complement. -/
def compl32 (x : Nat) : Nat := x ^^^ 4294967295

structure MD5State where
  a : Nat
  b : Nat
  c : Nat
  d : Nat
deriving DecidableEq

/-- Round function and message index of MD5 round `i`. -/
def md5FG (i b c d : Nat) : Nat × Nat :=
  if i < 16 then ((b &&& c) ||| (compl32 b &&& d), i)
  else if i < 32 then ((d &&& b) ||| (compl32 d &&& c), (5 * i + 1) % 16)
  else if i < 48 then (b ^^^ c ^^^ d, (3 * i + 5) % 16)
  else (c ^^^ (b ||| compl32 d), (7 * i) % 16)

/-- One of the 64 rounds applied to a chunk's message words `M`. -/
def md5Round (M : Nat → Nat) (st : MD5State) (i : Nat) : MD5State :=
  let fg := md5FG i st.b st.c st.d
  let f2 := (fg.1 + st.a + md5K.getD i 0 + M fg.2) % 4294967296
  ⟨st.d, (st.b + rotl32 f2 (md5S.getD i 0)) % 4294967296, st.b, st.c⟩

/-- Little-endian 32-bit word `g` of a 64-byte chunk. -/
def chunkWord (chunk : List Nat) (g : Nat) : Nat :=
  chunk.getD (4 * g) 0 + 256 * chunk.getD (4 * g + 1) 0
    + 65536 * chunk.getD (4 * g + 2) 0 + 16777216 * chunk.getD (4 * g + 3) 0

/-- Process one 64-byte chunk. -/
def md5Chunk (st : MD5State) (chunk : List Nat) : MD5State :=
  let r := (List.range 64).foldl (md5Round (chunkWord chunk)) st
  ⟨(st.a + r.a) % 4294967296, (st.b + r.b) % 4294967296,
   (st.c + r.c) % 4294967296, (st.d + r.d) % 4294967296⟩

/-- MD5 padding: `0x80`, zeros to 56 mod 64, then the bit length as a
64-bit little-endian integer. -/
def md5Pad (msg : List Nat) : List Nat :=
  let len := msg.length
  msg ++ 128 :: List.replicate ((119 - len % 64) % 64) 0
    ++ (List.range 8).map (fun i => ((8 * len) % 18446744073709551616) / 256 ^ i % 256)

def md5Init : MD5State := ⟨0x67452301, 0xefcdab89, 0x98badcfe, 0x10325476⟩

/-- The four state words of the digest, each reduced `% 2 ^ 32`. -/
def md5Final (msg : List Nat) : MD5State :=
  (chunkList 64 (md5Pad msg)).foldl md5Chunk md5Init

/-- Little-endian bytes of a 32-bit word. -/
def wordLEBytes (w : Nat) : List Nat :=
  [w % 256, w / 256 % 256, w / 65536 % 256, w / 16777216 % 256]

/-- The 16 digest bytes. -/
def md5Bytes (msg : List Nat) : List Nat :=
  let st := md5Final msg
  wordLEBytes st.a ++ wordLEBytes st.b ++ wordLEBytes st.c ++ wordLEBytes st.d

def hexChar (n : Nat) : Char :=
  match n with
  | 0 => '0' | 1 => '1' | 2 => '2' | 3 => '3' | 4 => '4'
  | 5 => '5' | 6 => '6' | 7 => '7' | 8 => '8' | 9 => '9'
  | 10 => 'a' | 11 => 'b' | 12 => 'c' | 13 => 'd' | 14 => 'e'
  | _ => 'f'

/-- Lowercase hex rendering of the digest bytes (`.hexdigest()`). -/
def hexOfBytes (bytes : List Nat) : String :=
  String.mk (bytes.flatMap (fun b => [hexChar (b / 16 % 16), hexChar (b % 16)]))

/-- `hashlib.md5(bytes).hexdigest()`. -/
def md5Hex (msg : List Nat) : String := hexOfBytes (md5Bytes msg)

-- Sanity check of the MD5 implementation against the RFC 1321 test value.
set_option maxRecDepth 8000 in
example : md5Hex (utf8Bytes "abc") = "900150983cd24fb0d6963f7d28e17f72" := by decide

/-! ## `DataRecord` and its content hash

`DataRecord` (both source files, identical): the normalized fact candidate.
`generate_hash` digests `f"{ano_mes}|{grupo_economico}|{servico}|{variavel}|{valor}"`
with MD5 and returns the lowercase hex digest. -/

structure DataRecord where
  ano_mes : String
  grupo_economico : String
  servico : String
  variavel : String
  valor : PyFloat
  arquivo_origem : String
  linha_origem : Nat
deriving DecidableEq

/-- The pipe-joined digest input of `DataRecord.generate_hash`. -/
def DataRecord.hashContent (r : DataRecord) : String :=
  r.ano_mes ++ "|" ++ r.grupo_economico ++ "|" ++ r.servico ++ "|" ++ r.variavel
    ++ "|" ++ pyFloatRepr r.valor

/-- `DataRecord.generate_hash`: MD5 hex digest of the UTF-8 encoded content. -/
def DataRecord.generate_hash (r : DataRecord) : String :=
  md5Hex (utf8Bytes r.hashContent)

theorem data_append (s t : String) : (s ++ t).data = s.data ++ t.data := rfl

theorem ratRepr_ne_word (q : ℚ) (w : String) (hw : '/' ∉ w.data) : ratRepr q ≠ w := by
  intro h
  exact hw (h ▸ slash_mem_ratRepr q)

theorem pyFloatRepr_inj {a b : PyFloat} (h : pyFloatRepr a = pyFloatRepr b) : a = b := by
  cases a with
  | finite p =>
    cases b with
    | finite q => exact congrArg PyFloat.finite (ratRepr_inj h)
    | inf => exact absurd h (ratRepr_ne_word p "inf" (by decide))
    | ninf => exact absurd h (ratRepr_ne_word p "-inf" (by decide))
    | nan => exact absurd h (ratRepr_ne_word p "nan" (by decide))
  | inf =>
    cases b with
    | finite q => exact absurd h.symm (ratRepr_ne_word q "inf" (by decide))
    | inf => rfl
    | ninf => exact absurd h (by decide)
    | nan => exact absurd h (by decide)
  | ninf =>
    cases b with
    | finite q => exact absurd h.symm (ratRepr_ne_word q "-inf" (by decide))
    | inf => exact absurd h (by decide)
    | ninf => rfl
    | nan => exact absurd h (by decide)
  | nan =>
    cases b with
    | finite q => exact absurd h.symm (ratRepr_ne_word q "nan" (by decide))
    | inf => exact absurd h (by decide)
    | ninf => exact absurd h (by decide)
    | nan => rfl

/-! ### Sensitivity of the digest input to each of the five hashed fields -/

theorem string_append_inj {p s : List Char} {x y : String}
    (h : p ++ x.data ++ s = p ++ y.data ++ s) : x = y := by
  rw [List.append_assoc, List.append_assoc] at h
  have h1 := List.append_cancel_left h
  have h2 := List.append_cancel_right h1
  cases x
  cases y
  exact congrArg String.mk h2

theorem hashContent_ano_mes {r : DataRecord} {v : String}
    (hv : v ≠ r.ano_mes) :
    DataRecord.hashContent { r with ano_mes := v } ≠ DataRecord.hashContent r := by
  intro h
  apply hv
  have hd := congrArg String.data h
  simp only [DataRecord.hashContent, data_append] at hd
  have hd2 : ([] : List Char) ++ v.data
        ++ (("|" ++ r.grupo_economico ++ "|" ++ r.servico ++ "|" ++ r.variavel
          ++ "|" ++ pyFloatRepr r.valor).data)
      = ([] : List Char) ++ r.ano_mes.data
        ++ (("|" ++ r.grupo_economico ++ "|" ++ r.servico ++ "|" ++ r.variavel
          ++ "|" ++ pyFloatRepr r.valor).data) := by
    simpa [data_append, List.append_assoc] using hd
  exact string_append_inj hd2

theorem hashContent_grupo {r : DataRecord} {v : String}
    (hv : v ≠ r.grupo_economico) :
    DataRecord.hashContent { r with grupo_economico := v } ≠ DataRecord.hashContent r := by
  intro h
  apply hv
  have hd := congrArg String.data h
  simp only [DataRecord.hashContent, data_append] at hd
  have hd2 : (r.ano_mes.data ++ "|".data) ++ v.data
        ++ (("|" ++ r.servico ++ "|" ++ r.variavel ++ "|" ++ pyFloatRepr r.valor).data)
      = (r.ano_mes.data ++ "|".data) ++ r.grupo_economico.data
        ++ (("|" ++ r.servico ++ "|" ++ r.variavel ++ "|" ++ pyFloatRepr r.valor).data) := by
    simpa [data_append, List.append_assoc] using hd
  exact string_append_inj hd2

theorem hashContent_servico {r : DataRecord} {v : String}
    (hv : v ≠ r.servico) :
    DataRecord.hashContent { r with servico := v } ≠ DataRecord.hashContent r := by
  intro h
  apply hv
  have hd := congrArg String.data h
  simp only [DataRecord.hashContent, data_append] at hd
  have hd2 : (r.ano_mes.data ++ "|".data ++ r.grupo_economico.data ++ "|".data) ++ v.data
        ++ (("|" ++ r.variavel ++ "|" ++ pyFloatRepr r.valor).data)
      = (r.ano_mes.data ++ "|".data ++ r.grupo_economico.data ++ "|".data) ++ r.servico.data
        ++ (("|" ++ r.variavel ++ "|" ++ pyFloatRepr r.valor).data) := by
    simpa [data_append, List.append_assoc] using hd
  exact string_append_inj hd2

theorem hashContent_variavel {r : DataRecord} {v : String}
    (hv : v ≠ r.variavel) :
    DataRecord.hashContent { r with variavel := v } ≠ DataRecord.hashContent r := by
  intro h
  apply hv
  have hd := congrArg String.data h
  simp only [DataRecord.hashContent, data_append] at hd
  have hd2 : (r.ano_mes.data ++ "|".data ++ r.grupo_economico.data ++ "|".data
          ++ r.servico.data ++ "|".data) ++ v.data
        ++ (("|" ++ pyFloatRepr r.valor).data)
      = (r.ano_mes.data ++ "|".data ++ r.grupo_economico.data ++ "|".data
          ++ r.servico.data ++ "|".data) ++ r.variavel.data
        ++ (("|" ++ pyFloatRepr r.valor).data) := by
    simpa [data_append, List.append_assoc] using hd
  exact string_append_inj hd2

theorem hashContent_valor {r : DataRecord} {v : PyFloat}
    (hv : v ≠ r.valor) :
    DataRecord.hashContent { r with valor := v } ≠ DataRecord.hashContent r := by
  intro h
  apply hv
  apply pyFloatRepr_inj
  have hd := congrArg String.data h
  simp only [DataRecord.hashContent, data_append] at hd
  have hd2 : (r.ano_mes.data ++ "|".data ++ r.grupo_economico.data ++ "|".data
          ++ r.servico.data ++ "|".data ++ r.variavel.data ++ "|".data)
          ++ (pyFloatRepr v).data ++ ([] : List Char)
      = (r.ano_mes.data ++ "|".data ++ r.grupo_economico.data ++ "|".data
          ++ r.servico.data ++ "|".data ++ r.variavel.data ++ "|".data)
          ++ (pyFloatRepr r.valor).data ++ ([] : List Char) := by
    simpa [data_append, List.append_assoc] using hd
  exact string_append_inj hd2

/-! ### The digest codomain is finite (for the pigeonhole refutation) -/

/-- Value of a little-endian byte list. -/
def packBytes (l : List Nat) : Nat := l.foldr (fun b acc => b + 256 * acc) 0

theorem packBytes_lt : ∀ (l : List Nat), (∀ b ∈ l, b < 256) → packBytes l < 256 ^ l.length := by
  intro l
  induction l with
  | nil => intro _; simp [packBytes]
  | cons b bs ih =>
      intro hb
      have h1 : b < 256 := hb b (List.mem_cons_self _ _)
      have h2 : packBytes bs < 256 ^ bs.length :=
        ih (fun x hx => hb x (List.mem_cons_of_mem _ hx))
      show b + 256 * packBytes bs < 256 ^ (bs.length + 1)
      calc b + 256 * packBytes bs < 256 * (packBytes bs + 1) := by omega
        _ ≤ 256 * 256 ^ bs.length := by
              exact Nat.mul_le_mul_left 256 (by omega)
        _ = 256 ^ (bs.length + 1) := by ring

theorem packBytes_inj : ∀ (l1 l2 : List Nat), l1.length = l2.length →
    (∀ b ∈ l1, b < 256) → (∀ b ∈ l2, b < 256) →
    packBytes l1 = packBytes l2 → l1 = l2 := by
  intro l1
  induction l1 with
  | nil =>
      intro l2 hlen _ _ _
      cases l2 with
      | nil => rfl
      | cons _ _ => simp at hlen
  | cons b bs ih =>
      intro l2 hlen hb1 hb2 hp
      cases l2 with
      | nil => simp at hlen
      | cons c cs =>
          have hb : b < 256 := hb1 b (List.mem_cons_self _ _)
          have hc : c < 256 := hb2 c (List.mem_cons_self _ _)
          have hpacked : b + 256 * packBytes bs = c + 256 * packBytes cs := hp
          have hbc : b = c := by omega
          have htail : packBytes bs = packBytes cs := by omega
          have := ih cs (by simpa using hlen)
            (fun x hx => hb1 x (List.mem_cons_of_mem _ hx))
            (fun x hx => hb2 x (List.mem_cons_of_mem _ hx)) htail
          rw [hbc, this]

theorem md5Bytes_length (msg : List Nat) : (md5Bytes msg).length = 16 := by
  simp [md5Bytes, wordLEBytes]

theorem wordLEBytes_lt (w : Nat) : ∀ b ∈ wordLEBytes w, b < 256 := by
  intro b hb
  simp only [wordLEBytes, List.mem_cons, List.not_mem_nil, or_false] at hb
  rcases hb with h | h | h | h <;> (rw [h]; exact Nat.mod_lt _ (by omega))

theorem md5Bytes_lt (msg : List Nat) : ∀ b ∈ md5Bytes msg, b < 256 := by
  intro b hb
  simp only [md5Bytes, List.mem_append] at hb
  rcases hb with ((h | h) | h) | h <;> exact wordLEBytes_lt _ _ h

theorem md5Packed_lt (msg : List Nat) : packBytes (md5Bytes msg) < 256 ^ 16 := by
  have h := packBytes_lt (md5Bytes msg) (md5Bytes_lt msg)
  rwa [md5Bytes_length msg] at h

/-- The full MD5 digest, packed into a number below `256 ^ 16 = 2 ^ 128`. -/
def md5Packed (msg : List Nat) : Fin (256 ^ 16) :=
  ⟨packBytes (md5Bytes msg), md5Packed_lt msg⟩

theorem md5Hex_eq_of_packed {m1 m2 : List Nat}
    (h : md5Packed m1 = md5Packed m2) : md5Hex m1 = md5Hex m2 := by
  have hlen : (md5Bytes m1).length = (md5Bytes m2).length := by
    rw [md5Bytes_length, md5Bytes_length]
  have hval : packBytes (md5Bytes m1) = packBytes (md5Bytes m2) := by
    have hval2 := congrArg Fin.val h
    simp only [md5Packed] at hval2
    exact hval2
  have hb : md5Bytes m1 = md5Bytes m2 :=
    packBytes_inj _ _ hlen (md5Bytes_lt m1) (md5Bytes_lt m2) hval
  unfold md5Hex hexOfBytes
  rw [hb]

/-! ## Header-row location (`ODSExtractor._find_header_row`)

The raw grid is the sheet read with `header=None`; each cell is already
rendered to text (`astype(str)`).  A row is a header row when, after
`strip().upper()`, some cell contains `"GRUPO"` and some cell contains
`"VARIAVEL"`, or (checked second) some cell contains a `\d{4}-\d{2}`
match; the scan covers the first `min(20, len)` rows and falls back to 8. -/

/-- Substring containment on character lists (Python `needle in hay`). -/
def containsSeq (needle : List Char) : List Char → Bool
  | [] => needle.isEmpty
  | c :: cs => needle.isPrefixOf (c :: cs) || containsSeq needle cs

def containsStr (needle hay : String) : Bool := containsSeq needle.data hay.data

/-- Does `\d{4}-\d{2}` match at the head of the character list? -/
def ymHere : List Char → Bool
  | a :: b :: c :: d :: e :: f :: g :: _ =>
    a.isDigit && b.isDigit && c.isDigit && d.isDigit && e == '-' && f.isDigit && g.isDigit
  | _ => false

/-- `re.search(r'\d{4}-\d{2}', v)`: the pattern matches at some position
(ASCII digits; Python's `\d` additionally matches unicode digits, which no
claim exercises). -/
def hasYM : List Char → Bool
  | [] => false
  | c :: cs => ymHere (c :: cs) || hasYM cs

/-- `str(v).strip().upper()` applied to one raw cell. -/
def normalizeCell (v : String) : String := pyUpper (pyStrip v)

/-- The per-row header test, text rule first, then the year-month rule
(both return the same row index, so the row-level disjunction is exact). -/
def isHeaderRow (row : List String) : Bool :=
  let normalized := row.map normalizeCell
  (normalized.any (fun v => containsStr "GRUPO" v)
      && normalized.any (fun v => containsStr "VARIAVEL" v))
    || normalized.any (fun v => hasYM v.data)

def headerScan : List (List String) → Nat → Nat
  | [], _ => 8
  | r :: rs, idx => if isHeaderRow r then idx else headerScan rs (idx + 1)

/-- `ODSExtractor._find_header_row`: scan the first `min(20, len)` rows
top-down, return the first header row's index, else the fallback 8. -/
def find_header_row (grid : List (List String)) : Nat :=
  headerScan (grid.take 20) 0

/-! ## Forward fill of the group column

`df['GRUPO_ECONOMICO'] = df['GRUPO_ECONOMICO'].ffill()`: a blank cell is a
missing value (`NaN`, read from a blank/merged spreadsheet cell), modelled
as `none`; `ffill` carries the last non-missing value downward. -/

def ffillStep : Option String → List (Option String) → List (Option String)
  | _, [] => []
  | carry, c :: cs =>
    match c with
    | some v => some v :: ffillStep (some v) cs
    | none => carry :: ffillStep carry cs

/-- pandas `Series.ffill()` on the group column. -/
def ffill (col : List (Option String)) : List (Option String) := ffillStep none col

/-- The value a forward-fill must produce at a position: the last
non-missing entry at or before it. -/
def lastSome (l : List (Option String)) : Option String :=
  l.foldl (fun acc c => match c with | some v => some v | none => acc) none

/-! ## Month-column classification (`DataTransformer._is_month_column`)

A column label is either a string or a parsed date (pandas `Timestamp`,
which is what `hasattr(col, 'year') and hasattr(col, 'month')` detects). -/

inductive PyCol where
  | text (s : String)
  | stamp (y m d : Nat)
deriving DecidableEq

def pad2 (n : Nat) : List Char := if n < 10 then '0' :: natDigits n else natDigits n

/-- `str(col)`: a string is itself; a Timestamp renders as
`YYYY-MM-DD HH:MM:SS` (midnight for a date-only stamp). -/
def pyColStr : PyCol → String
  | .text s => s
  | .stamp y m d =>
    String.mk (natDigits y ++ '-' :: pad2 m ++ '-' :: pad2 d ++ " 00:00:00".data)

/-- Python `str.split(sep)` for a one-character separator. -/
def splitOnChar (sep : Char) : List Char → List (List Char)
  | [] => [[]]
  | c :: cs =>
    if c = sep then [] :: splitOnChar sep cs
    else
      match splitOnChar sep cs with
      | [] => [[c]]
      | h :: t => (c :: h) :: t

/-- The body of `_is_month_column`'s 7-character branch:
`year, month = col_str.split('-')` (a bad unpack raises, caught → `False`),
`int(year)`/`int(month)` (a bad literal raises, caught → `False`), then the
range test. -/
def monthLabelCheck (l : List Char) : Bool :=
  match splitOnChar '-' l with
  | [y, m] =>
    match pyIntChars y, pyIntChars m with
    | some yv, some mv => decide (2000 ≤ yv ∧ yv ≤ 2030 ∧ 1 ≤ mv ∧ mv ≤ 12)
    | _, _ => false
  | _ => false

/-- `DataTransformer._is_month_column`: `col_str = str(col).strip()`; if it
has length 7 with `'-'` at index 4, run the split/int/range check (any
exception is caught and yields `False`); otherwise a Timestamp column is a
month column; never raises. -/
def is_month_column (col : PyCol) : Bool :=
  let l := (pyStrip (pyColStr col)).data
  if l.length = 7 ∧ l.getD 4 ' ' = '-' then monthLabelCheck l
  else
    match col with
    | .stamp _ _ _ => true
    | .text _ => false

/-! ## Per-cell value handling in `DataTransformer.transform` -/

/-- A raw month cell: missing (`NaN`), text, or a number. -/
inductive Cell where
  | missing
  | text (s : String)
  | number (q : ℚ)
deriving DecidableEq

/-- `pd.isna(valor)`. -/
def cellIsNa : Cell → Bool
  | .missing => true
  | _ => false

/-- `str(valor)` (the missing case renders as `"nan"`; it sits behind the
`pd.isna` check and is never the deciding test). -/
def cellStr : Cell → String
  | .missing => "nan"
  | .text s => s
  | .number q => pyFloatRepr (.finite q)

/-- `value.replace(',', '.')` for the one-character pattern: replace every
occurrence. -/
def replaceChar (a b : Char) (l : List Char) : List Char :=
  l.map (fun c => if c = a then b else c)

/-- `value.replace('%', '')` for the one-character pattern: remove every
occurrence. -/
def removeChar (a : Char) (l : List Char) : List Char :=
  l.filter (fun c => c ≠ a)

/-- `DataTransformer._parse_value`: for a string, replace every `','` by
`'.'` and remove every `'%'`, then `float(...)`; numbers pass through;
any exception yields `None`. -/
def parse_value : Cell → Option PyFloat
  | .text s => pyFloatOfString (String.mk (removeChar '%' (replaceChar ',' '.' s.data)))
  | .number q => some (.finite q)
  | .missing => some .nan

/-- The month-cell handling inside `DataTransformer.transform`: skip when
`pd.isna(valor)` or `str(valor).strip() in ['-', '', 'nan']`, otherwise the
parsed value (`none` = no record emitted for this cell). -/
def transformCell (c : Cell) : Option PyFloat :=
  if cellIsNa c || (["-", "", "nan"] : List String).contains (pyStrip (cellStr c)) then
    none
  else parse_value c

/-- Modelled from the claim's wording, for the refinement comparison of C5:
replace the decimal comma by a point and strip one TRAILING percent sign
only. -/
def specCleanValue (s : String) : String :=
  let t := replaceChar ',' '.' s.data
  match t.getLast? with
  | some '%' => String.mk t.dropLast
  | _ => String.mk t

/-- Modelled from the claim's wording: the cell handling C5 describes. -/
def specTransformCell (c : Cell) : Option PyFloat :=
  if cellIsNa c || (["-", "", "nan"] : List String).contains (pyStrip (cellStr c)) then
    none
  else
    match c with
    | .text s => pyFloatOfString (specCleanValue s)
    | .number q => some (.finite q)
    | .missing => none

/-! ## The star-schema store and `PostgreSQLLoader`

The database is a pure value.  Dimension rows are keyed by their natural
codes (their unique constraints are what `ON CONFLICT` targets), and the
fact table carries the `hash_registro` unique column.  Surrogate keys are
identified with the natural keys, a bijection under the schema's unique
constraints.  A mid-transaction database fault (connectivity or constraint
failure at a `cursor.execute`) is injected by a per-record failure oracle. -/

def isLeap (y : Nat) : Bool := (y % 4 = 0 && y % 100 ≠ 0) || y % 400 = 0

def daysInMonth (y m : Nat) : Nat :=
  if m = 2 then (if isLeap y then 29 else 28)
  else if m = 4 ∨ m = 6 ∨ m = 9 ∨ m = 11 then 30
  else 31

/-- `datetime.strptime(ano_mes, '%Y-%m-%d')`: three dash-separated all-digit
fields.  CPython's `_strptime` compiles `%Y` to exactly four digits
(`\d\d\d\d`) while `%m` and `%d` take one or two; the `datetime`
constructor then requires year >= 1 (`MINYEAR`), month in 1..12 and day
valid for the calendar month, raising `ValueError` otherwise. -/
def parseAnoMes (s : String) : Option (Nat × Nat × Nat) :=
  match splitOnChar '-' s.data with
  | [ys, ms, ds] =>
    if ys.length = 4 ∧ ys.all Char.isDigit = true
        ∧ ms ≠ [] ∧ ms.length ≤ 2 ∧ ms.all Char.isDigit = true
        ∧ ds ≠ [] ∧ ds.length ≤ 2 ∧ ds.all Char.isDigit = true then
      let y := digitsVal ys
      let m := digitsVal ms
      let d := digitsVal ds
      if 1 ≤ y ∧ 1 ≤ m ∧ m ≤ 12 ∧ 1 ≤ d ∧ d ≤ daysInMonth y m then some (y, m, d)
      else none
    else none
  | _ => none

/-- The fixed Portuguese month-name table of `_ensure_dimensions`
(`month_names[month]` raises on a key outside 1..12; unreachable because
`strptime`'s `%m` guarantees the range). -/
def month_names (m : Nat) : String :=
  match m with
  | 1 => "Janeiro" | 2 => "Fevereiro" | 3 => "Março" | 4 => "Abril"
  | 5 => "Maio" | 6 => "Junho" | 7 => "Julho" | 8 => "Agosto"
  | 9 => "Setembro" | 10 => "Outubro" | 11 => "Novembro" | 12 => "Dezembro"
  | _ => ""

structure TempoRow where
  ano : Nat
  mes : Nat
  dia : Nat
  mes_nome : String
  trimestre : Nat
  semestre : Nat
deriving DecidableEq

structure FactRow where
  tempo_key : Nat × Nat × Nat
  grupo_key : String
  servico_key : String
  variavel_key : String
  valor : PyFloat
  arquivo_origem : String
  linha_origem : Nat
  hash_registro : String
deriving DecidableEq

structure Store where
  dim_tempo : List TempoRow
  dim_grupo : List String
  dim_servico : List String
  dim_variavel : List String
  fact_ida : List FactRow
deriving DecidableEq

def tempoKeys (st : Store) : List (Nat × Nat × Nat) :=
  st.dim_tempo.map (fun t => (t.ano, t.mes, t.dia))

def factHashes (st : Store) : List String :=
  st.fact_ida.map (fun f => f.hash_registro)

/-- `INSERT INTO ida.dim_tempo ... ON CONFLICT (ano_mes) DO NOTHING` with
the derived attributes of `_ensure_dimensions`. -/
def insertTempo (st : Store) (k : Nat × Nat × Nat) : Store :=
  if k ∈ tempoKeys st then st
  else
    { st with dim_tempo := st.dim_tempo
        ++ [⟨k.1, k.2.1, k.2.2, month_names k.2.1,
             (k.2.1 - 1) / 3 + 1, (k.2.1 - 1) / 6 + 1⟩] }

/-- Insert-if-absent on a natural-code dimension. -/
def insertCode (codes : List String) (c : String) : List String :=
  if c ∈ codes then codes else codes ++ [c]

/-- The `dim_tempo` loop of `_ensure_dimensions`: `strptime` each period and
insert-if-absent.  The Python code iterates the set of distinct periods;
iterating the record list is membership-equivalent and is how it is
modelled.  An unparseable period raises (`.error`). -/
def ensureTempos (st : Store) : List DataRecord → Except String Store
  | [] => .ok st
  | r :: rs =>
    match parseAnoMes r.ano_mes with
    | none => .error "strptime"
    | some k => ensureTempos (insertTempo st k) rs

/-- `PostgreSQLLoader._ensure_dimensions`. -/
def ensure_dimensions (st : Store) (records : List DataRecord) : Except String Store :=
  match ensureTempos st records with
  | .error e => .error e
  | .ok st1 =>
    let g := records.foldl (fun acc r => insertCode acc r.grupo_economico) st1.dim_grupo
    let s := records.foldl (fun acc r => insertCode acc r.servico) st1.dim_servico
    let v := records.foldl (fun acc r => insertCode acc r.variavel) st1.dim_variavel
    .ok { st1 with dim_grupo := g, dim_servico := s, dim_variavel := v }

/-- The natural-key join of the fact insert finds a row in all four
dimension tables. -/
def dimsMatch (st : Store) (r : DataRecord) (k : Nat × Nat × Nat) : Bool :=
  decide (k ∈ tempoKeys st) && decide (r.grupo_economico ∈ st.dim_grupo)
    && decide (r.servico ∈ st.dim_servico) && decide (r.variavel ∈ st.dim_variavel)

def mkFactRow (k : Nat × Nat × Nat) (r : DataRecord) : FactRow :=
  ⟨k, r.grupo_economico, r.servico, r.variavel, r.valor,
   r.arquivo_origem, r.linha_origem, r.generate_hash⟩

/-- One fact `INSERT ... SELECT ... ON CONFLICT (hash_registro) DO NOTHING`
and its `rowcount`: 0 when the dimension join is empty or the content hash
already exists, 1 when a row is inserted.  (An uncastable period would make
the SQL `::date` cast raise; under `load` the ensure step has already
`strptime`d every period, so that branch is unreachable there.) -/
def insert_fact (st : Store) (r : DataRecord) : Store × Nat :=
  match parseAnoMes r.ano_mes with
  | none => (st, 0)
  | some k =>
    if dimsMatch st r k then
      if r.generate_hash ∈ factHashes st then (st, 0)
      else ({ st with fact_ida := st.fact_ida ++ [mkFactRow k r] }, 1)
    else (st, 0)

/-- Sequential fact insertion over a record list (failure-free). -/
def insertList (st : Store) : List DataRecord → Store × Nat
  | [] => (st, 0)
  | r :: rs =>
    let p := insert_fact st r
    let q := insertList p.1 rs
    (q.1, p.2 + q.2)

/-- `PostgreSQLLoader._insert_batch` with the failure oracle: each record's
`cursor.execute` either raises (oracle says `true`) or performs the insert. -/
def insert_batch (fail : DataRecord → Bool) (st : Store) :
    List DataRecord → Except String (Store × Nat)
  | [] => .ok (st, 0)
  | r :: rs =>
    if fail r then .error "db error"
    else
      let p := insert_fact st r
      match insert_batch fail p.1 rs with
      | .error e => .error e
      | .ok (st2, n) => .ok (st2, p.2 + n)

/-- The batch loop of `PostgreSQLLoader.load`. -/
def insertBatches (fail : DataRecord → Bool) (st : Store) :
    List (List DataRecord) → Except String (Store × Nat)
  | [] => .ok (st, 0)
  | b :: bs =>
    match insert_batch fail st b with
    | .error e => .error e
    | .ok (st1, n) =>
      match insertBatches fail st1 bs with
      | .error e => .error e
      | .ok (st2, m) => .ok (st2, n + m)

/-- Connection-level operations of one `load` call (individual
`cursor.execute` statements all happen between `getConn` and the final
`commit`/`rollback` and are not itemised; an empty `ops` trace means the
call never touched the pool or the database). -/
inductive DbOp where
  | getConn
  | commit
  | rollback
  | putConn
deriving DecidableEq

instance {ε α : Type} [DecidableEq ε] [DecidableEq α] : DecidableEq (Except ε α) :=
  fun a b =>
    match a, b with
    | .ok x, .ok y =>
      if h : x = y then .isTrue (by rw [h]) else .isFalse (by simp [h])
    | .error x, .error y =>
      if h : x = y then .isTrue (by rw [h]) else .isFalse (by simp [h])
    | .ok _, .error _ => .isFalse (by simp)
    | .error _, .ok _ => .isFalse (by simp)

structure LoadOut where
  store : Store
  res : Except String Nat
  ops : List DbOp
deriving DecidableEq

/-- `PostgreSQLLoader.load`: empty input returns 0 before any connection is
taken; otherwise one connection runs ensure + all batches as a single
transaction, committed once after the loop; any exception rolls the whole
transaction back (the committed store stays as it was) and propagates. -/
def load (fail : DataRecord → Bool) (db : Store) (records : List DataRecord)
    (batch_size : Nat) : LoadOut :=
  if records.isEmpty then ⟨db, .ok 0, []⟩
  else
    match ensure_dimensions db records with
    | .error e => ⟨db, .error e, [.getConn, .rollback, .putConn]⟩
    | .ok st1 =>
      match insertBatches fail st1 (chunkList batch_size records) with
      | .error e => ⟨db, .error e, [.getConn, .rollback, .putConn]⟩
      | .ok (st2, n) => ⟨st2, .ok n, [.getConn, .commit, .putConn]⟩

/-- The failure-free oracle (a healthy database). -/
def noFail : DataRecord → Bool := fun _ => false

/-! ## `ETLPipeline.run` (the `etl_ida_sysint.py` orchestrator)

Per resource, the download/extract/transform stages are external effects;
each resource therefore carries its observed outcome: `noDownload` (the
download helper caught its exception and returned `None`; `run` just
`continue`s), `stepFail msg` (an exception with message `msg` reached the
per-resource `except`), or `ok dfLen recs` (extraction of `dfLen` rows,
transformation to `recs`). -/

inductive Outcome where
  | noDownload
  | stepFail (msg : String)
  | ok (dfLen : Nat) (recs : List DataRecord)
deriving DecidableEq

structure Resource where
  titulo : String
  outcome : Outcome
deriving DecidableEq

structure RunStats where
  recursos_processados : Nat
  registros_extraidos : Nat
  registros_transformados : Nat
  registros_carregados : Nat
  erros : List String
deriving DecidableEq

def initStats : RunStats := ⟨0, 0, 0, 0, []⟩

structure LoopState where
  stats : RunStats
  buffer : List DataRecord
  store : Store
deriving DecidableEq

/-- The message appended by the per-resource `except` clause. -/
def errMsg (titulo msg : String) : String :=
  "Erro ao processar " ++ titulo ++ ": " ++ msg

/-- One iteration of the resource loop of `ETLPipeline.run`: buffer the
transformed records, flush through `load` when the buffer reaches
`batch_size * 5` (a load exception is caught: message recorded, buffer
kept, store left rolled back, the processed counter not incremented), and
count the resource as processed on success. -/
def stepResource (fail : DataRecord → Bool) (bs : Nat) (s : LoopState)
    (r : Resource) : LoopState :=
  match r.outcome with
  | .noDownload => s
  | .stepFail m =>
    { s with stats := { s.stats with erros := s.stats.erros ++ [errMsg r.titulo m] } }
  | .ok n recs =>
    let buf := s.buffer ++ recs
    let st := { s.stats with
      registros_extraidos := s.stats.registros_extraidos + n,
      registros_transformados := s.stats.registros_transformados + recs.length }
    if bs * 5 ≤ buf.length then
      let out := load fail s.store buf bs
      match out.res with
      | .ok ld =>
        { stats := { st with
            registros_carregados := st.registros_carregados + ld,
            recursos_processados := st.recursos_processados + 1 },
          buffer := [], store := out.store }
      | .error e =>
        { stats := { st with erros := st.erros ++ [errMsg r.titulo e] },
          buffer := buf, store := out.store }
    else
      { stats := { st with recursos_processados := st.recursos_processados + 1 },
        buffer := buf, store := s.store }

/-- Network requests issued by a run: the catalog API query and one file
download attempt per resource. -/
inductive NetEvent where
  | api
  | download (titulo : String)
deriving DecidableEq

/-- `ETLPipeline.run`: health check, then the API query, then the resource
loop, then the final flush of the remaining buffer -- whose failure, unlike
a per-resource failure, propagates out of `run`. -/
def pipelineRun (healthOk : Bool) (apiOk : Bool) (fail : DataRecord → Bool)
    (db : Store) (resources : List Resource) (bs : Nat) :
    Except String RunStats × List NetEvent :=
  if !healthOk then (.ok initStats, [])
  else if !apiOk then (.ok initStats, [.api])
  else
    let final := resources.foldl (stepResource fail bs) ⟨initStats, [], db⟩
    let events := .api :: resources.map (fun r => .download r.titulo)
    if final.buffer.isEmpty then (.ok final.stats, events)
    else
      match (load fail final.store final.buffer bs).res with
      | .ok n =>
        (.ok { final.stats with
          registros_carregados := final.stats.registros_carregados + n }, events)
      | .error e => (.error e, events)

/-! ## Loader lemmas -/

/-- All four dimension rows a record joins against exist. -/
def dimsOK (st : Store) (r : DataRecord) : Prop :=
  ∃ k, parseAnoMes r.ano_mes = some k ∧ dimsMatch st r k = true

theorem insert_fact_dims (st : Store) (r : DataRecord) :
    (insert_fact st r).1.dim_tempo = st.dim_tempo
      ∧ (insert_fact st r).1.dim_grupo = st.dim_grupo
      ∧ (insert_fact st r).1.dim_servico = st.dim_servico
      ∧ (insert_fact st r).1.dim_variavel = st.dim_variavel := by
  unfold insert_fact
  rcases parseAnoMes r.ano_mes with _ | k
  · exact ⟨rfl, rfl, rfl, rfl⟩
  · simp only
    split
    · split
      · exact ⟨rfl, rfl, rfl, rfl⟩
      · exact ⟨rfl, rfl, rfl, rfl⟩
    · exact ⟨rfl, rfl, rfl, rfl⟩

theorem insertList_dims (l : List DataRecord) :
    ∀ st : Store, (insertList st l).1.dim_tempo = st.dim_tempo
      ∧ (insertList st l).1.dim_grupo = st.dim_grupo
      ∧ (insertList st l).1.dim_servico = st.dim_servico
      ∧ (insertList st l).1.dim_variavel = st.dim_variavel := by
  induction l with
  | nil => intro st; exact ⟨rfl, rfl, rfl, rfl⟩
  | cons r rs ih =>
      intro st
      obtain ⟨h1, h2, h3, h4⟩ := insert_fact_dims st r
      obtain ⟨g1, g2, g3, g4⟩ := ih (insert_fact st r).1
      exact ⟨g1.trans h1, g2.trans h2, g3.trans h3, g4.trans h4⟩

theorem dimsOK_of_dims_eq {st st2 : Store} {r : DataRecord}
    (ht : st2.dim_tempo = st.dim_tempo) (hg : st2.dim_grupo = st.dim_grupo)
    (hs : st2.dim_servico = st.dim_servico) (hv : st2.dim_variavel = st.dim_variavel)
    (h : dimsOK st r) : dimsOK st2 r := by
  obtain ⟨k, hk, hm⟩ := h
  refine ⟨k, hk, ?_⟩
  unfold dimsMatch tempoKeys at hm ⊢
  rw [ht, hg, hs, hv]
  exact hm

theorem insert_fact_hashes_mono (st : Store) (r : DataRecord) {h : String}
    (hm : h ∈ factHashes st) : h ∈ factHashes (insert_fact st r).1 := by
  unfold insert_fact
  rcases parseAnoMes r.ano_mes with _ | k
  · exact hm
  · simp only
    split
    · split
      · exact hm
      · unfold factHashes at hm ⊢
        simp only [List.map_append]
        exact List.mem_append_left _ hm
    · exact hm

theorem insertList_hashes_mono (l : List DataRecord) :
    ∀ (st : Store) (h : String), h ∈ factHashes st → h ∈ factHashes (insertList st l).1 := by
  induction l with
  | nil => intro st h hm; exact hm
  | cons r rs ih =>
      intro st h hm
      exact ih (insert_fact st r).1 h (insert_fact_hashes_mono st r hm)

theorem insert_fact_hash_mem {st : Store} {r : DataRecord} (hd : dimsOK st r) :
    r.generate_hash ∈ factHashes (insert_fact st r).1 := by
  obtain ⟨k, hk, hm⟩ := hd
  unfold insert_fact
  rw [hk]
  simp only [hm, if_true]
  by_cases hh : r.generate_hash ∈ factHashes st
  · rw [if_pos hh]
    exact hh
  · rw [if_neg hh]
    unfold factHashes mkFactRow
    simp

theorem insertList_hash_mem (l : List DataRecord) :
    ∀ st : Store, (∀ r ∈ l, dimsOK st r) →
      ∀ r ∈ l, r.generate_hash ∈ factHashes (insertList st l).1 := by
  induction l with
  | nil => intro st _ r hr; cases hr
  | cons a as ih =>
      intro st hd r hr
      obtain ⟨h1, h2, h3, h4⟩ := insert_fact_dims st a
      rcases List.mem_cons.mp hr with rfl | hr2
      · exact insertList_hashes_mono as _ _
          (insert_fact_hash_mem (hd r (List.mem_cons_self _ _)))
      · exact ih (insert_fact st a).1
          (fun x hx => dimsOK_of_dims_eq h1 h2 h3 h4 (hd x (List.mem_cons_of_mem _ hx)))
          r hr2

theorem insert_fact_noop {st : Store} {r : DataRecord}
    (hh : r.generate_hash ∈ factHashes st) : insert_fact st r = (st, 0) := by
  unfold insert_fact
  rcases parseAnoMes r.ano_mes with _ | k
  · rfl
  · simp only
    by_cases hd : dimsMatch st r k = true
    · rw [if_pos hd, if_pos hh]
    · rw [if_neg hd]

theorem insertList_noop (l : List DataRecord) :
    ∀ st : Store, (∀ r ∈ l, r.generate_hash ∈ factHashes st) → insertList st l = (st, 0) := by
  induction l with
  | nil => intro st _; rfl
  | cons a as ih =>
      intro st hh
      have ha := insert_fact_noop (hh a (List.mem_cons_self _ _))
      unfold insertList
      rw [ha]
      simp only
      rw [ih st (fun r hr => hh r (List.mem_cons_of_mem _ hr))]
      rfl

theorem tuple3_eta (k : Nat × Nat × Nat) : (k.1, k.2.1, k.2.2) = k := rfl

theorem insertTempo_fields (st : Store) (k : Nat × Nat × Nat) :
    (insertTempo st k).dim_grupo = st.dim_grupo
      ∧ (insertTempo st k).dim_servico = st.dim_servico
      ∧ (insertTempo st k).dim_variavel = st.dim_variavel
      ∧ (insertTempo st k).fact_ida = st.fact_ida := by
  unfold insertTempo
  split <;> exact ⟨rfl, rfl, rfl, rfl⟩

theorem insertTempo_mem (st : Store) (k : Nat × Nat × Nat) :
    k ∈ tempoKeys (insertTempo st k) := by
  unfold insertTempo
  by_cases hk : k ∈ tempoKeys st
  · rw [if_pos hk]
    exact hk
  · rw [if_neg hk]
    unfold tempoKeys
    simp [tuple3_eta]

theorem insertTempo_mono (st : Store) (k : Nat × Nat × Nat) {x : Nat × Nat × Nat}
    (hx : x ∈ tempoKeys st) : x ∈ tempoKeys (insertTempo st k) := by
  unfold insertTempo
  split
  · exact hx
  · unfold tempoKeys at hx ⊢
    simp only [List.map_append]
    exact List.mem_append_left _ hx

theorem insertTempo_of_mem {st : Store} {k : Nat × Nat × Nat}
    (hk : k ∈ tempoKeys st) : insertTempo st k = st := by
  unfold insertTempo
  rw [if_pos hk]

theorem ensureTempos_spec (l : List DataRecord) :
    ∀ (st st2 : Store), ensureTempos st l = .ok st2 →
      st2.dim_grupo = st.dim_grupo ∧ st2.dim_servico = st.dim_servico
        ∧ st2.dim_variavel = st.dim_variavel ∧ st2.fact_ida = st.fact_ida
        ∧ (∀ x ∈ tempoKeys st, x ∈ tempoKeys st2)
        ∧ (∀ r ∈ l, ∃ k, parseAnoMes r.ano_mes = some k ∧ k ∈ tempoKeys st2) := by
  induction l with
  | nil =>
      intro st st2 h
      cases h
      exact ⟨rfl, rfl, rfl, rfl, fun x hx => hx, fun r hr => absurd hr (List.not_mem_nil r)⟩
  | cons a as ih =>
      intro st st2 h
      unfold ensureTempos at h
      rcases hp : parseAnoMes a.ano_mes with _ | k
      · rw [hp] at h
        cases h
      · rw [hp] at h
        obtain ⟨hg, hs, hv, hf, hmono, hall⟩ := ih (insertTempo st k) st2 h
        obtain ⟨g1, g2, g3, g4⟩ := insertTempo_fields st k
        refine ⟨hg.trans g1, hs.trans g2, hv.trans g3, hf.trans g4,
          fun x hx => hmono x (insertTempo_mono st k hx), ?_⟩
        intro r hr
        rcases List.mem_cons.mp hr with rfl | hr2
        · exact ⟨k, hp, hmono k (insertTempo_mem st k)⟩
        · exact hall r hr2

theorem ensureTempos_ok (l : List DataRecord) :
    ∀ st : Store, (∀ r ∈ l, (parseAnoMes r.ano_mes).isSome) →
      ∃ st2, ensureTempos st l = .ok st2 := by
  induction l with
  | nil => intro st _; exact ⟨st, rfl⟩
  | cons a as ih =>
      intro st hp
      have ha := hp a (List.mem_cons_self _ _)
      rcases hk : parseAnoMes a.ano_mes with _ | k
      · rw [hk] at ha
        simp [Option.isSome] at ha
      · obtain ⟨st2, h2⟩ := ih (insertTempo st k) (fun r hr => hp r (List.mem_cons_of_mem _ hr))
        refine ⟨st2, ?_⟩
        unfold ensureTempos
        rw [hk]
        exact h2

theorem ensureTempos_noop (l : List DataRecord) :
    ∀ st : Store, (∀ r ∈ l, ∃ k, parseAnoMes r.ano_mes = some k ∧ k ∈ tempoKeys st) →
      ensureTempos st l = .ok st := by
  induction l with
  | nil => intro st _; rfl
  | cons a as ih =>
      intro st hp
      obtain ⟨k, hk, hmem⟩ := hp a (List.mem_cons_self _ _)
      unfold ensureTempos
      rw [hk]
      show ensureTempos (insertTempo st k) as = Except.ok st
      rw [insertTempo_of_mem hmem]
      exact ih st (fun r hr => hp r (List.mem_cons_of_mem _ hr))

theorem insertCode_mem_self (acc : List String) (c : String) : c ∈ insertCode acc c := by
  unfold insertCode
  split
  · assumption
  · simp

theorem insertCode_mono (acc : List String) (c : String) {x : String}
    (hx : x ∈ acc) : x ∈ insertCode acc c := by
  unfold insertCode
  split
  · exact hx
  · exact List.mem_append_left _ hx

theorem insertCode_of_mem {acc : List String} {c : String}
    (hc : c ∈ acc) : insertCode acc c = acc := by
  unfold insertCode
  rw [if_pos hc]

theorem foldCodes_mem (f : DataRecord → String) (l : List DataRecord) :
    ∀ acc, (∀ r ∈ l, f r ∈ l.foldl (fun a x => insertCode a (f x)) acc)
      ∧ (∀ x ∈ acc, x ∈ l.foldl (fun a x => insertCode a (f x)) acc) := by
  induction l with
  | nil =>
      intro acc
      exact ⟨fun r hr => absurd hr (List.not_mem_nil r), fun x hx => hx⟩
  | cons a as ih =>
      intro acc
      obtain ⟨ih1, ih2⟩ := ih (insertCode acc (f a))
      constructor
      · intro r hr
        rcases List.mem_cons.mp hr with rfl | hr2
        · exact ih2 (f r) (insertCode_mem_self acc (f r))
        · exact ih1 r hr2
      · intro x hx
        exact ih2 x (insertCode_mono acc (f a) hx)

theorem foldCodes_noop (f : DataRecord → String) (l : List DataRecord) :
    ∀ acc, (∀ r ∈ l, f r ∈ acc) → l.foldl (fun a x => insertCode a (f x)) acc = acc := by
  induction l with
  | nil => intro acc _; rfl
  | cons a as ih =>
      intro acc hmem
      show as.foldl _ (insertCode acc (f a)) = acc
      rw [insertCode_of_mem (hmem a (List.mem_cons_self _ _))]
      exact ih acc (fun r hr => hmem r (List.mem_cons_of_mem _ hr))

theorem ensure_dimensions_spec {records : List DataRecord} {st st1 : Store}
    (h : ensure_dimensions st records = .ok st1) :
    st1.fact_ida = st.fact_ida ∧ (∀ r ∈ records, dimsOK st1 r) := by
  unfold ensure_dimensions at h
  rcases ht : ensureTempos st records with e | st2
  · rw [ht] at h
    cases h
  · rw [ht] at h
    obtain ⟨hg, hs, hv, hf, _hmono, hall⟩ := ensureTempos_spec records st st2 ht
    cases h
    refine ⟨hf, ?_⟩
    intro r hr
    obtain ⟨k, hk, hkm⟩ := hall r hr
    refine ⟨k, hk, ?_⟩
    unfold dimsMatch
    have htk : k ∈ tempoKeys { st2 with
        dim_grupo := records.foldl (fun acc r => insertCode acc r.grupo_economico) st2.dim_grupo,
        dim_servico := records.foldl (fun acc r => insertCode acc r.servico) st2.dim_servico,
        dim_variavel := records.foldl (fun acc r => insertCode acc r.variavel) st2.dim_variavel } := hkm
    simp only [Bool.and_eq_true, decide_eq_true_eq]
    exact ⟨⟨⟨htk, (foldCodes_mem _ records _).1 r hr⟩,
      (foldCodes_mem _ records _).1 r hr⟩,
      (foldCodes_mem _ records _).1 r hr⟩

theorem ensure_dimensions_ok {records : List DataRecord} (st : Store)
    (hp : ∀ r ∈ records, (parseAnoMes r.ano_mes).isSome) :
    ∃ st1, ensure_dimensions st records = .ok st1 := by
  obtain ⟨st2, h2⟩ := ensureTempos_ok records st hp
  refine ⟨{ st2 with
    dim_grupo := records.foldl (fun acc r => insertCode acc r.grupo_economico) st2.dim_grupo,
    dim_servico := records.foldl (fun acc r => insertCode acc r.servico) st2.dim_servico,
    dim_variavel := records.foldl (fun acc r => insertCode acc r.variavel) st2.dim_variavel }, ?_⟩
  unfold ensure_dimensions
  rw [h2]

theorem ensure_dimensions_noop {records : List DataRecord} {st : Store}
    (hd : ∀ r ∈ records, dimsOK st r) : ensure_dimensions st records = .ok st := by
  have htempos : ensureTempos st records = .ok st := by
    apply ensureTempos_noop
    intro r hr
    obtain ⟨k, hk, hm⟩ := hd r hr
    unfold dimsMatch at hm
    simp only [Bool.and_eq_true, decide_eq_true_eq] at hm
    exact ⟨k, hk, hm.1.1.1⟩
  have hg : records.foldl (fun acc r => insertCode acc r.grupo_economico) st.dim_grupo
      = st.dim_grupo := by
    apply foldCodes_noop
    intro r hr
    obtain ⟨k, _hk, hm⟩ := hd r hr
    unfold dimsMatch at hm
    simp only [Bool.and_eq_true, decide_eq_true_eq] at hm
    exact hm.1.1.2
  have hs : records.foldl (fun acc r => insertCode acc r.servico) st.dim_servico
      = st.dim_servico := by
    apply foldCodes_noop
    intro r hr
    obtain ⟨k, _hk, hm⟩ := hd r hr
    unfold dimsMatch at hm
    simp only [Bool.and_eq_true, decide_eq_true_eq] at hm
    exact hm.1.2
  have hv : records.foldl (fun acc r => insertCode acc r.variavel) st.dim_variavel
      = st.dim_variavel := by
    apply foldCodes_noop
    intro r hr
    obtain ⟨k, _hk, hm⟩ := hd r hr
    unfold dimsMatch at hm
    simp only [Bool.and_eq_true, decide_eq_true_eq] at hm
    exact hm.2
  unfold ensure_dimensions
  rw [htempos]
  show Except.ok { st with
      dim_grupo := records.foldl (fun acc r => insertCode acc r.grupo_economico) st.dim_grupo,
      dim_servico := records.foldl (fun acc r => insertCode acc r.servico) st.dim_servico,
      dim_variavel := records.foldl (fun acc r => insertCode acc r.variavel) st.dim_variavel }
    = Except.ok st
  rw [hg, hs, hv]

theorem insertList_append (l1 l2 : List DataRecord) :
    ∀ st : Store, insertList st (l1 ++ l2)
      = ((insertList (insertList st l1).1 l2).1,
         (insertList st l1).2 + (insertList (insertList st l1).1 l2).2) := by
  induction l1 with
  | nil =>
      intro st
      show insertList st l2 = ((insertList st l2).1, 0 + (insertList st l2).2)
      simp
  | cons a as ih =>
      intro st
      have hstep1 : insertList st (a :: (as ++ l2))
          = ((insertList (insert_fact st a).1 (as ++ l2)).1,
             (insert_fact st a).2 + (insertList (insert_fact st a).1 (as ++ l2)).2) := rfl
      have hstep2 : insertList st (a :: as)
          = ((insertList (insert_fact st a).1 as).1,
             (insert_fact st a).2 + (insertList (insert_fact st a).1 as).2) := rfl
      show insertList st (a :: (as ++ l2)) = _
      rw [hstep1, ih (insert_fact st a).1, hstep2]
      simp [Nat.add_assoc]

theorem insert_batch_noFail (b : List DataRecord) :
    ∀ st : Store, insert_batch noFail st b = .ok (insertList st b) := by
  induction b with
  | nil => intro st; rfl
  | cons r rs ih =>
      intro st
      show (if noFail r then _ else _) = _
      rw [if_neg (by simp [noFail])]
      simp only
      rw [ih (insert_fact st r).1]
      rfl

theorem insertBatches_noFail (bs : List (List DataRecord)) :
    ∀ st : Store, insertBatches noFail st bs = .ok (insertList st bs.flatten) := by
  induction bs with
  | nil => intro st; rfl
  | cons b rest ih =>
      intro st
      unfold insertBatches
      rw [insert_batch_noFail b st]
      simp only
      rw [ih (insertList st b).1]
      simp only [List.flatten_cons]
      rw [insertList_append b rest.flatten st]

theorem insert_batch_err (b : List DataRecord) (fail : DataRecord → Bool) :
    ∀ st : Store, (∃ r ∈ b, fail r = true) →
      ∃ e, insert_batch fail st b = .error e := by
  induction b with
  | nil =>
      intro st h
      obtain ⟨r, hr, _⟩ := h
      exact absurd hr (List.not_mem_nil r)
  | cons a as ih =>
      intro st h
      by_cases ha : fail a = true
      · refine ⟨"db error", ?_⟩
        unfold insert_batch
        rw [if_pos ha]
      · obtain ⟨r, hr, hfr⟩ := h
        rcases List.mem_cons.mp hr with rfl | hr2
        · exact absurd hfr ha
        · obtain ⟨e, he⟩ := ih (insert_fact st a).1 ⟨r, hr2, hfr⟩
          refine ⟨e, ?_⟩
          unfold insert_batch
          rw [if_neg ha]
          simp only
          rw [he]

theorem insertBatches_err (bs : List (List DataRecord)) (fail : DataRecord → Bool) :
    ∀ st : Store, (∃ b ∈ bs, ∃ r ∈ b, fail r = true) →
      ∃ e, insertBatches fail st bs = .error e := by
  induction bs with
  | nil =>
      intro st h
      obtain ⟨b, hb, _⟩ := h
      exact absurd hb (List.not_mem_nil b)
  | cons b rest ih =>
      intro st h
      rcases hres : insert_batch fail st b with e | p
      · exact ⟨e, by unfold insertBatches; rw [hres]⟩
      · obtain ⟨st1, n⟩ := p
        have htail : ∃ b2 ∈ rest, ∃ r ∈ b2, fail r = true := by
          obtain ⟨b2, hb2, hr2⟩ := h
          rcases List.mem_cons.mp hb2 with rfl | hb3
          · obtain ⟨e, he⟩ := insert_batch_err b2 fail st hr2
            rw [hres] at he
            cases he
          · exact ⟨b2, hb3, hr2⟩
        obtain ⟨e, he⟩ := ih st1 htail
        refine ⟨e, ?_⟩
        unfold insertBatches
        rw [hres]
        show (match insertBatches fail st1 rest with
          | Except.error e => Except.error e
          | Except.ok (st2, m) => Except.ok (st2, n + m)) = Except.error e
        rw [he]

theorem isEmpty_false_of_ne_nil {α : Type} {l : List α} (h : l ≠ []) :
    l.isEmpty = false := by
  cases l with
  | nil => exact absurd rfl h
  | cons a as => rfl

theorem load_noFail_eq {db : Store} {records : List DataRecord} (bs : Nat)
    (hne : records ≠ []) {st1 : Store}
    (hens : ensure_dimensions db records = .ok st1) :
    load noFail db records bs
      = ⟨(insertList st1 records).1, .ok (insertList st1 records).2,
         [.getConn, .commit, .putConn]⟩ := by
  unfold load
  rw [isEmpty_false_of_ne_nil hne]
  show (match ensure_dimensions db records with
    | Except.error e => LoadOut.mk db (.error e) [.getConn, .rollback, .putConn]
    | Except.ok st1 =>
      match insertBatches noFail st1 (chunkList bs records) with
      | Except.error e => LoadOut.mk db (.error e) [.getConn, .rollback, .putConn]
      | Except.ok (st2, n) => LoadOut.mk st2 (.ok n) [.getConn, .commit, .putConn]) = _
  rw [hens]
  show (match insertBatches noFail st1 (chunkList bs records) with
    | Except.error e => LoadOut.mk db (.error e) [.getConn, .rollback, .putConn]
    | Except.ok (st2, n) => LoadOut.mk st2 (.ok n) [.getConn, .commit, .putConn]) = _
  rw [insertBatches_noFail (chunkList bs records) st1, chunkList_join bs records]

/-! ## The claims -/

/-- C1: loading the identical list of normalized records a second time after
a successful first load inserts zero net new fact rows -- the fact row count
after the second load equals the count after the first, and the second load
returns 0, because an insert whose content hash already exists is an
`ON CONFLICT ... DO NOTHING` no-op rather than an error.  (`0 < batch_size`
guards the `range`-step precondition; the periods parse, as every record
produced by the transformer's `YYYY-MM-01` formatting does.) -/
theorem claim_C1_load_idempotent (db : Store) (records : List DataRecord)
    (batch_size : Nat) (_hbs : 0 < batch_size)
    (hp : ∀ r ∈ records, (parseAnoMes r.ano_mes).isSome = true) :
    (∃ n, (load noFail db records batch_size).res = .ok n)
      ∧ (load noFail (load noFail db records batch_size).store records
          batch_size).store.fact_ida.length
        = (load noFail db records batch_size).store.fact_ida.length
      ∧ (load noFail (load noFail db records batch_size).store records
          batch_size).res = .ok 0 := by
  by_cases hne : records = []
  · subst hne
    exact ⟨⟨0, rfl⟩, rfl, rfl⟩
  · obtain ⟨st1, hens⟩ := ensure_dimensions_ok db hp
    have h1 := load_noFail_eq batch_size hne hens
    obtain ⟨_hfacts, hdOK1⟩ := ensure_dimensions_spec hens
    obtain ⟨d1, d2, d3, d4⟩ := insertList_dims records st1
    have hdOKS1 : ∀ r ∈ records, dimsOK (insertList st1 records).1 r :=
      fun r hr => dimsOK_of_dims_eq d1 d2 d3 d4 (hdOK1 r hr)
    have hhash : ∀ r ∈ records,
        r.generate_hash ∈ factHashes (insertList st1 records).1 :=
      insertList_hash_mem records st1 hdOK1
    have hens2 : ensure_dimensions (insertList st1 records).1 records
        = .ok (insertList st1 records).1 := ensure_dimensions_noop hdOKS1
    have h2 := load_noFail_eq batch_size hne hens2
    have hnoop : insertList (insertList st1 records).1 records
        = ((insertList st1 records).1, 0) := insertList_noop records _ hhash
    rw [h1]
    simp only
    rw [h2, hnoop]
    exact ⟨⟨(insertList st1 records).2, rfl⟩, rfl, rfl⟩

/-- Witness for C1: a one-record load into an empty store, batch size 1. -/
def w1rec : DataRecord := ⟨"2018-01-01", "CLARO", "SMP", "IDA", .finite 1, "SMP_2018.ods", 9⟩

def w1db : Store := ⟨[], [], [], [], []⟩

theorem claim_C1_witness :
    (0 < 1 ∧ ∀ r ∈ [w1rec], (parseAnoMes r.ano_mes).isSome = true)
      ∧ ((∃ n, (load noFail w1db [w1rec] 1).res = .ok n)
        ∧ (load noFail (load noFail w1db [w1rec] 1).store [w1rec] 1).store.fact_ida.length
          = (load noFail w1db [w1rec] 1).store.fact_ida.length
        ∧ (load noFail (load noFail w1db [w1rec] 1).store [w1rec] 1).res = .ok 0) :=
  ⟨⟨by decide, by decide⟩,
   claim_C1_load_idempotent w1db [w1rec] 1 (by decide) (by decide)⟩

/-- Did the load call succeed? -/
def loadOk (o : LoadOut) : Bool :=
  match o.res with
  | .ok _ => true
  | .error _ => false

/-- Concrete fixture for C2: two records in singleton batches; the failure
oracle makes the second record's `cursor.execute` raise. -/
def c2rec1 : DataRecord := ⟨"2018-01-01", "CLARO", "SMP", "IDA", .finite 1, "SMP_2018.ods", 1⟩

def c2rec2 : DataRecord := ⟨"2018-01-01", "CLARO", "SMP", "IDA", .finite 2, "SMP_2018.ods", 2⟩

def c2db : Store := ⟨[⟨2018, 1, 1, "Janeiro", 1, 1⟩], ["CLARO"], ["SMP"], ["IDA"], []⟩

def c2fail : DataRecord → Bool := fun r => r.linha_origem == 2

set_option maxRecDepth 100000 in
/-- C2 counterexample: with `batch_size = 1`, batch 1 (`[c2rec1]`) succeeds
and inserts one fact row into the transaction, batch 2 fails; the load call
errors and the committed store afterwards is the ORIGINAL store with zero
fact rows -- the earlier batch's row is rolled back too, contradicting the
claim that a later batch's failure leaves fact rows of an earlier batch of
the same call in place (the code commits once per `load` call, after the
loop, not once per batch). -/
theorem claim_C2_counterexample :
    (insert_batch c2fail c2db [c2rec1]).map (fun p => (p.1.fact_ida.length, p.2))
        = .ok (1, 1)
      ∧ (load c2fail c2db [c2rec1, c2rec2] 1).res = .error "db error"
      ∧ (load c2fail c2db [c2rec1, c2rec2] 1).store = c2db
      ∧ c2db.fact_ida.length = 0 :=
  ⟨by with_unfolding_all decide, by with_unfolding_all decide,
   by with_unfolding_all decide, rfl⟩

/-- C2 (amended): within a single `load` call the whole call -- dimension
ensures and every batch -- is one atomic transaction: on any per-batch
failure nothing of the call persists (the committed store is exactly the
pre-call store, so in particular the failing batch has no partial commit)
and the error propagates to the caller; moreover a failure oracle that
faults some record of the list always makes the call fail. -/
theorem claim_C2_load_atomic (fail : DataRecord → Bool) (db : Store)
    (records : List DataRecord) (batch_size : Nat) (_hbs : 0 < batch_size) :
    (loadOk (load fail db records batch_size) = false →
        (load fail db records batch_size).store = db)
      ∧ ((∃ r ∈ records, fail r = true) →
        loadOk (load fail db records batch_size) = false) := by
  by_cases hne : records = []
  · subst hne
    constructor
    · intro h
      simp [load, loadOk] at h
    · intro h
      obtain ⟨r, hr, _⟩ := h
      exact absurd hr (List.not_mem_nil r)
  · have hunfold : load fail db records batch_size
        = match ensure_dimensions db records with
          | Except.error e => LoadOut.mk db (.error e) [.getConn, .rollback, .putConn]
          | Except.ok st1 =>
            match insertBatches fail st1 (chunkList batch_size records) with
            | Except.error e => LoadOut.mk db (.error e) [.getConn, .rollback, .putConn]
            | Except.ok (st2, n) => LoadOut.mk st2 (.ok n) [.getConn, .commit, .putConn] := by
      unfold load
      rw [isEmpty_false_of_ne_nil hne]
      rfl
    rcases hens : ensure_dimensions db records with e | st1
    · rw [hens] at hunfold
      have hu2 : load fail db records batch_size
          = LoadOut.mk db (.error e) [.getConn, .rollback, .putConn] := hunfold
      constructor
      · intro _
        rw [hu2]
      · intro _
        rw [hu2]
        rfl
    · rw [hens] at hunfold
      have hu2 : load fail db records batch_size
          = match insertBatches fail st1 (chunkList batch_size records) with
            | Except.error e => LoadOut.mk db (.error e) [.getConn, .rollback, .putConn]
            | Except.ok (st2, n) =>
              LoadOut.mk st2 (.ok n) [.getConn, .commit, .putConn] := hunfold
      rcases hbat : insertBatches fail st1 (chunkList batch_size records) with e | p
      · rw [hbat] at hu2
        constructor
        · intro _
          rw [hu2]
        · intro _
          rw [hu2]
          rfl
      · obtain ⟨st2, n⟩ := p
        rw [hbat] at hu2
        have hu3 : load fail db records batch_size
            = LoadOut.mk st2 (.ok n) [.getConn, .commit, .putConn] := hu2
        constructor
        · intro h
          rw [hu3] at h
          simp [loadOk] at h
        · intro hfails
          exfalso
          obtain ⟨r, hr, hfr⟩ := hfails
          have hrj : r ∈ (chunkList batch_size records).flatten := by
            rw [chunkList_join]
            exact hr
          obtain ⟨b, hb, hrb⟩ := List.mem_flatten.mp hrj
          obtain ⟨e2, he2⟩ := insertBatches_err (chunkList batch_size records) fail st1
            ⟨b, hb, r, hrb, hfr⟩
          rw [hbat] at he2
          cases he2

/-- Witness for C2 (amended) at the concrete two-record fixture. -/
theorem claim_C2_witness :
    (0 < 1 ∧ ∃ r ∈ [c2rec1, c2rec2], c2fail r = true)
      ∧ loadOk (load c2fail c2db [c2rec1, c2rec2] 1) = false
      ∧ (load c2fail c2db [c2rec1, c2rec2] 1).store = c2db := by
  have h := claim_C2_load_atomic c2fail c2db [c2rec1, c2rec2] 1 (by decide)
  have h2 := h.2 (by decide)
  exact ⟨⟨by decide, by decide⟩, h2, h.1 h2⟩

/-! ### Header-locator lemmas (C3) -/

theorem containsSeq_iff (n : List Char) :
    ∀ h : List Char, containsSeq n h = true ↔ ∃ p q, h = p ++ n ++ q := by
  intro h
  induction h with
  | nil =>
      unfold containsSeq
      constructor
      · intro he
        rw [List.isEmpty_iff] at he
        exact ⟨[], [], by rw [he]; rfl⟩
      · rintro ⟨p, q, hpq⟩
        have hp : p = [] ∧ n ++ q = [] := by
          cases p with
          | nil => exact ⟨rfl, hpq.symm⟩
          | cons x xs => cases hpq
        have hn : n = [] := by
          rcases List.append_eq_nil.mp hp.2 with ⟨h1, _⟩
          exact h1
        rw [hn]
        rfl
  | cons c cs ih =>
      show (n.isPrefixOf (c :: cs) || containsSeq n cs) = true ↔ _
      rw [Bool.or_eq_true, ih, List.isPrefixOf_iff_prefix]
      constructor
      · rintro (⟨t, ht⟩ | ⟨p, q, hpq⟩)
        · exact ⟨[], t, by rw [← ht]; rfl⟩
        · exact ⟨c :: p, q, by rw [hpq]; rfl⟩
      · rintro ⟨p, q, hpq⟩
        cases p with
        | nil =>
            left
            exact ⟨q, by simpa using hpq.symm⟩
        | cons x xs =>
            right
            simp only [List.cons_append, List.cons.injEq] at hpq
            exact ⟨xs, q, hpq.2⟩

theorem ymHere_iff (l : List Char) : ymHere l = true ↔
    ∃ a b c d e f t, l = a :: b :: c :: d :: '-' :: e :: f :: t
      ∧ a.isDigit = true ∧ b.isDigit = true ∧ c.isDigit = true ∧ d.isDigit = true
      ∧ e.isDigit = true ∧ f.isDigit = true := by
  match l with
  | [] => simp [ymHere]
  | [a] => simp [ymHere]
  | [a, b] => simp [ymHere]
  | [a, b, c] => simp [ymHere]
  | [a, b, c, d] => simp [ymHere]
  | [a, b, c, d, g] => simp [ymHere]
  | [a, b, c, d, g, e] => simp [ymHere]
  | a :: b :: c :: d :: g :: e :: f :: t =>
      unfold ymHere
      constructor
      · intro h
        simp only [Bool.and_eq_true, beq_iff_eq] at h
        obtain ⟨⟨⟨⟨⟨⟨ha, hb⟩, hc⟩, hd⟩, hg⟩, he⟩, hf⟩ := h
        subst hg
        exact ⟨a, b, c, d, e, f, t, rfl, ha, hb, hc, hd, he, hf⟩
      · rintro ⟨a2, b2, c2, d2, e2, f2, t2, heq, ha, hb, hc, hd, he, hf⟩
        simp only [List.cons.injEq] at heq
        obtain ⟨rfl, rfl, rfl, rfl, rfl, rfl, rfl, rfl⟩ := heq
        simp [ha, hb, hc, hd, he, hf]

theorem hasYM_iff (l : List Char) : hasYM l = true ↔
    ∃ p t, l = p ++ t ∧ ymHere t = true := by
  induction l with
  | nil =>
      unfold hasYM
      constructor
      · intro h
        cases h
      · rintro ⟨p, t, hpt, hy⟩
        obtain ⟨rfl, rfl⟩ := List.append_eq_nil.mp hpt.symm
        cases hy
  | cons c cs ih =>
      show (ymHere (c :: cs) || hasYM cs) = true ↔ _
      rw [Bool.or_eq_true, ih]
      constructor
      · rintro (h | ⟨p, t, hpt, hy⟩)
        · exact ⟨[], c :: cs, rfl, h⟩
        · exact ⟨c :: p, t, by rw [hpt]; rfl, hy⟩
      · rintro ⟨p, t, hpt, hy⟩
        cases p with
        | nil =>
            left
            simp only [List.nil_append] at hpt
            rw [hpt]
            exact hy
        | cons x xs =>
            right
            simp only [List.cons_append, List.cons.injEq] at hpt
            exact ⟨xs, t, hpt.2, hy⟩

/-- The claim's row predicate: after `strip().upper()` normalization, some
cell contains `GRUPO` and some cell contains `VARIAVEL`, or some cell
contains a four-digits/hyphen/two-digits match. -/
def rowIsHeaderProp (row : List String) : Prop :=
  ((∃ v ∈ row, ∃ p q, (normalizeCell v).data = p ++ "GRUPO".data ++ q)
      ∧ (∃ v ∈ row, ∃ p q, (normalizeCell v).data = p ++ "VARIAVEL".data ++ q))
    ∨ (∃ v ∈ row, ∃ p a b c d e f q,
        (normalizeCell v).data = p ++ a :: b :: c :: d :: '-' :: e :: f :: q
          ∧ a.isDigit = true ∧ b.isDigit = true ∧ c.isDigit = true ∧ d.isDigit = true
          ∧ e.isDigit = true ∧ f.isDigit = true)

theorem isHeaderRow_iff (row : List String) :
    isHeaderRow row = true ↔ rowIsHeaderProp row := by
  unfold isHeaderRow rowIsHeaderProp
  simp only [Bool.or_eq_true, Bool.and_eq_true, List.any_eq_true, List.mem_map]
  constructor
  · rintro (⟨⟨x1, ⟨v1, hv1, rfl⟩, hg⟩, ⟨x2, ⟨v2, hv2, rfl⟩, hva⟩⟩ | ⟨x, ⟨v, hv, rfl⟩, hy⟩)
    · obtain ⟨p1, q1, h1⟩ := (containsSeq_iff _ _).mp hg
      obtain ⟨p2, q2, h2⟩ := (containsSeq_iff _ _).mp hva
      exact Or.inl ⟨⟨v1, hv1, p1, q1, h1⟩, ⟨v2, hv2, p2, q2, h2⟩⟩
    · obtain ⟨p, t, hpt, hyh⟩ := (hasYM_iff _).mp hy
      obtain ⟨a, b, c, d, e, f, t2, ht2, ha, hb, hc, hd, he, hf⟩ := (ymHere_iff t).mp hyh
      refine Or.inr ⟨v, hv, p, a, b, c, d, e, f, t2, ?_, ha, hb, hc, hd, he, hf⟩
      rw [hpt, ht2]
  · rintro (⟨⟨v1, hv1, p1, q1, h1⟩, ⟨v2, hv2, p2, q2, h2⟩⟩ | ⟨v, hv, p, a, b, c, d, e, f, q, hq, ha, hb, hc, hd, he, hf⟩)
    · refine Or.inl ⟨⟨normalizeCell v1, ⟨v1, hv1, rfl⟩, ?_⟩,
        ⟨normalizeCell v2, ⟨v2, hv2, rfl⟩, ?_⟩⟩
      · exact (containsSeq_iff _ _).mpr ⟨p1, q1, h1⟩
      · exact (containsSeq_iff _ _).mpr ⟨p2, q2, h2⟩
    · refine Or.inr ⟨normalizeCell v, ⟨v, hv, rfl⟩, ?_⟩
      refine (hasYM_iff _).mpr ⟨p, a :: b :: c :: d :: '-' :: e :: f :: q, hq, ?_⟩
      exact (ymHere_iff _).mpr ⟨a, b, c, d, e, f, q, rfl, ha, hb, hc, hd, he, hf⟩

theorem headerScan_fallback (rows : List (List String)) :
    ∀ base : Nat, (∀ r ∈ rows, isHeaderRow r = false) → headerScan rows base = 8 := by
  induction rows with
  | nil => intro base _; rfl
  | cons r rs ih =>
      intro base hall
      unfold headerScan
      rw [hall r (List.mem_cons_self _ _)]
      show headerScan rs (base + 1) = 8
      exact ih (base + 1) (fun x hx => hall x (List.mem_cons_of_mem _ hx))

theorem headerScan_first (rows : List (List String)) :
    ∀ (base i : Nat), i < rows.length → isHeaderRow (rows.getD i []) = true →
      (∀ j, j < i → isHeaderRow (rows.getD j []) = false) →
      headerScan rows base = base + i := by
  induction rows with
  | nil =>
      intro base i hi _ _
      cases hi
  | cons r rs ih =>
      intro base i hi hhead hprior
      cases i with
      | zero =>
          unfold headerScan
          rw [show (r :: rs).getD 0 [] = r from rfl] at hhead
          rw [hhead]
          rfl
      | succ i2 =>
          have hr : isHeaderRow r = false := hprior 0 (Nat.succ_pos i2)
          unfold headerScan
          rw [hr]
          show headerScan rs (base + 1) = base + (i2 + 1)
          have := ih (base + 1) i2 (by simpa using Nat.lt_of_succ_lt_succ hi)
            (by simpa using hhead)
            (fun j hj => by simpa using hprior (j + 1) (Nat.succ_lt_succ hj))
          rw [this]
          omega

theorem getD_take_eq (grid : List (List String)) (i : Nat)
    (hi : i < min 20 grid.length) :
    (grid.take 20).getD i [] = grid.getD i [] := by
  have h1 : i < (grid.take 20).length := by
    rw [List.length_take]
    exact hi
  have h2 : i < grid.length := lt_of_lt_of_le hi (Nat.min_le_right _ _)
  rw [List.getD_eq_getElem _ _ h1, List.getD_eq_getElem _ _ h2]
  exact List.getElem_take _

/-- C3: the header locator scans the first `min(20, rows)` rows top-down and
returns the smallest index whose row satisfies the header test -- some cell's
trimmed upper-cased text contains `GRUPO` and another contains `VARIAVEL`
(checked first), or some cell's text contains a four-digits/hyphen/two-digits
match (checked second in the same row; either rule marks the row, so the
first row satisfying the disjunction wins) -- and returns the fallback 8,
without failing, when no row in the bound satisfies either rule. -/
theorem claim_C3_find_header_row :
    (∀ row : List String, isHeaderRow row = true ↔ rowIsHeaderProp row)
      ∧ (∀ grid : List (List String),
          (∀ i, i < min 20 grid.length → isHeaderRow (grid.getD i []) = false) →
            find_header_row grid = 8)
      ∧ (∀ (grid : List (List String)) (i : Nat), i < min 20 grid.length →
          isHeaderRow (grid.getD i []) = true →
          (∀ j, j < i → isHeaderRow (grid.getD j []) = false) →
          find_header_row grid = i) := by
  refine ⟨isHeaderRow_iff, ?_, ?_⟩
  · intro grid hall
    unfold find_header_row
    apply headerScan_fallback
    intro r hr
    obtain ⟨i, hi, hri⟩ := List.getElem_of_mem hr
    have hlen : i < min 20 grid.length := by
      rw [← List.length_take]
      exact hi
    have hgd : (grid.take 20).getD i [] = r := by
      rw [List.getD_eq_getElem _ _ hi]
      exact hri
    rw [← hgd, getD_take_eq grid i hlen]
    exact hall i hlen
  · intro grid i hi hhead hprior
    unfold find_header_row
    have hlen : i < (grid.take 20).length := by
      rw [List.length_take]
      exact hi
    have h0 := headerScan_first (grid.take 20) 0 i hlen
      (by rw [getD_take_eq grid i hi]; exact hhead)
      (fun j hj => by
        rw [getD_take_eq grid j (lt_trans hj hi)]
        exact hprior j hj)
    rw [h0]
    omega

/-- Witness for C3: a three-row grid whose second row carries the
`GRUPO`/`VARIAVEL` labels. -/
theorem claim_C3_witness :
    (1 < min 20 ([["x"], ["Grupo Economico", "VariaveL"], ["2018-01"]]
          : List (List String)).length
        ∧ isHeaderRow ([["x"], ["Grupo Economico", "VariaveL"], ["2018-01"]].getD 1 []) = true
        ∧ (∀ j, j < 1 →
            isHeaderRow ([["x"], ["Grupo Economico", "VariaveL"], ["2018-01"]].getD j []) = false))
      ∧ find_header_row [["x"], ["Grupo Economico", "VariaveL"], ["2018-01"]] = 1 := by
  have h := claim_C3_find_header_row.2.2
    [["x"], ["Grupo Economico", "VariaveL"], ["2018-01"]] 1
    (by decide) (by decide) (by decide)
  exact ⟨⟨by decide, by decide, by decide⟩, h⟩

/-! ### Forward-fill lemmas and claim (C4) -/

theorem ffillStep_getD (cells : List (Option String)) :
    ∀ (carry : Option String) (i : Nat), i < cells.length →
      (ffillStep carry cells).getD i none
        = (cells.take (i + 1)).foldl
            (fun acc c => match c with | some v => some v | none => acc) carry := by
  induction cells with
  | nil =>
      intro carry i hi
      cases hi
  | cons c cs ih =>
      intro carry i hi
      cases i with
      | zero => cases c <;> rfl
      | succ i2 =>
          have hi2 : i2 < cs.length := by simpa using Nat.lt_of_succ_lt_succ hi
          cases c with
          | some v =>
              show (ffillStep (some v) cs).getD i2 none = _
              rw [ih (some v) i2 hi2]
              rfl
          | none =>
              show (ffillStep carry cs).getD i2 none = _
              rw [ih carry i2 hi2]
              rfl

/-- C4: after extraction, `ffill` gives every cell of the group column the
value of the nearest non-blank cell at or before it (blank = missing/`NaN`,
the form a blank or merged spreadsheet cell takes in the raw grid), so a
blank cell inherits the nearest preceding non-blank value; in particular the
quoted column `["A", blank, blank, "B"]` normalizes to `["A","A","A","B"]`. -/
theorem claim_C4_forward_fill :
    (∀ (cells : List (Option String)) (i : Nat), i < cells.length →
        (ffill cells).getD i none = lastSome (cells.take (i + 1)))
      ∧ ffill [some "A", none, none, some "B"]
          = [some "A", some "A", some "A", some "B"] := by
  constructor
  · intro cells i hi
    exact ffillStep_getD cells none i hi
  · rfl

/-- Witness for C4 at a concrete column and position. -/
theorem claim_C4_witness :
    (1 < ([some "A", none] : List (Option String)).length)
      ∧ (ffill [some "A", none]).getD 1 none = lastSome ([some "A", none].take 2) := by
  have h := claim_C4_forward_fill.1 [some "A", none] 1 (by decide)
  exact ⟨by decide, h⟩

/-- C9: when the database readiness check fails at startup, `run` returns
immediately with the zeroed statistics: no network request is issued (no
catalog API query, no download -- the event trace is empty) and no resource
is processed. -/
theorem claim_C9_health_gate (apiOk : Bool) (fail : DataRecord → Bool) (db : Store)
    (resources : List Resource) (bs : Nat) :
    pipelineRun false apiOk fail db resources bs = (.ok initStats, [])
      ∧ initStats.recursos_processados = 0 ∧ initStats.erros = [] :=
  ⟨rfl, rfl, rfl⟩

/-- C10: `load` on an empty record list returns 0 and performs no database
operation at all: the store is untouched and the operation trace is empty
(no connection checkout, no SQL, no commit or rollback). -/
theorem claim_C10_load_empty (fail : DataRecord → Bool) (db : Store) (batch_size : Nat) :
    load fail db [] batch_size = ⟨db, .ok 0, []⟩ := rfl

/-- C5 counterexample: the claim says a cell is parsed after "stripping a
TRAILING percent sign"; the code removes EVERY percent sign
(`value.replace('%', '')`).  On the cell text `"%50"` the code emits the
value `50.0`, while the claim's cleaning rule leaves `"%50"`, which fails
float parsing and would be skipped. -/
theorem claim_C5_counterexample :
    transformCell (.text "%50") = some (.finite 50)
      ∧ specTransformCell (.text "%50") = none :=
  ⟨by with_unfolding_all decide, by with_unfolding_all decide⟩

/-- C5 (amended): for every month-column cell, no record is emitted and
nothing raises when the cell is missing or its trimmed text is `'-'`, `''`
or `'nan'`; otherwise the cell text is cleaned by replacing every comma with
a point and removing every percent sign (not only a trailing one) and parsed
as a Python float, so `'12,5%'` yields 12.5 and `'7.0'` yields 7.0; a cell
whose cleaned text still fails float parsing is skipped with no record and
no exception. -/
theorem claim_C5_cell_parsing :
    (∀ c : Cell, cellIsNa c = true → transformCell c = none)
      ∧ (∀ s : String, (pyStrip s = "-" ∨ pyStrip s = "" ∨ pyStrip s = "nan") →
          transformCell (.text s) = none)
      ∧ transformCell (.text "12,5%") = some (.finite (25 / 2 : ℚ))
      ∧ transformCell (.text "7.0") = some (.finite 7)
      ∧ (∀ s : String,
          pyFloatOfString (String.mk (removeChar '%' (replaceChar ',' '.' s.data))) = none →
          transformCell (.text s) = none) := by
  refine ⟨?_, ?_, by with_unfolding_all decide, by with_unfolding_all decide, ?_⟩
  · intro c hna
    unfold transformCell
    rw [hna]
    rfl
  · intro s hs
    have hcontains : (["-", "", "nan"] : List String).contains (pyStrip (cellStr (.text s)))
        = true := by
      show (["-", "", "nan"] : List String).contains (pyStrip s) = true
      rcases hs with h | h | h <;> rw [h] <;> decide
    unfold transformCell
    rw [hcontains]
    simp [cellIsNa]
  · intro s hparse
    unfold transformCell
    by_cases hskip : (cellIsNa (.text s)
        || (["-", "", "nan"] : List String).contains (pyStrip (cellStr (.text s)))) = true
    · rw [if_pos hskip]
    · rw [if_neg hskip]
      show parse_value (.text s) = none
      unfold parse_value
      exact hparse

/-- Witness for C5 (amended) at concrete cells: a missing cell, a dash cell
and an unparseable text cell. -/
theorem claim_C5_witness :
    (cellIsNa Cell.missing = true ∧ transformCell Cell.missing = none)
      ∧ (pyStrip " - " = "-" ∧ transformCell (.text " - ") = none)
      ∧ (pyFloatOfString (String.mk (removeChar '%' (replaceChar ',' '.'
            ("abc" : String).data))) = none
          ∧ transformCell (.text "abc") = none) := by
  have h := claim_C5_cell_parsing
  exact ⟨⟨by decide, h.1 Cell.missing (by decide)⟩,
    ⟨by decide, h.2.1 " - " (Or.inl (by decide))⟩,
    ⟨by with_unfolding_all decide,
     h.2.2.2.2 "abc" (by with_unfolding_all decide)⟩⟩

/-! ### Month-column lemmas and claim (C6) -/

theorem monthLabelCheck_iff (l : List Char) :
    monthLabelCheck l = true ↔
      ∃ (y m : List Char) (yv mv : Int),
        splitOnChar '-' l = [y, m] ∧ pyIntChars y = some yv ∧ pyIntChars m = some mv
          ∧ 2000 ≤ yv ∧ yv ≤ 2030 ∧ 1 ≤ mv ∧ mv ≤ 12 := by
  unfold monthLabelCheck
  rcases hsp : splitOnChar '-' l with _ | ⟨y, _ | ⟨m, _ | ⟨z, t⟩⟩⟩
  · show false = true ↔ _
    constructor
    · intro h
      cases h
    · rintro ⟨y2, m2, yv, mv, heq, _⟩
      cases heq
  · show false = true ↔ _
    constructor
    · intro h
      cases h
    · rintro ⟨y2, m2, yv, mv, heq, _⟩
      cases heq
  · show (match pyIntChars y, pyIntChars m with
      | some yv, some mv => decide (2000 ≤ yv ∧ yv ≤ 2030 ∧ 1 ≤ mv ∧ mv ≤ 12)
      | _, _ => false) = true ↔ _
    rcases hy : pyIntChars y with _ | yv
    · show false = true ↔ _
      constructor
      · intro h
        cases h
      · rintro ⟨y2, m2, yv, mv, heq, hy2, _⟩
        simp only [List.cons.injEq, and_true] at heq
        obtain ⟨rfl, rfl⟩ := heq
        rw [hy] at hy2
        cases hy2
    · rcases hm : pyIntChars m with _ | mv
      · show false = true ↔ _
        constructor
        · intro h
          cases h
        · rintro ⟨y2, m2, yv2, mv2, heq, hy2, hm2, _⟩
          simp only [List.cons.injEq, and_true] at heq
          obtain ⟨rfl, rfl⟩ := heq
          rw [hm] at hm2
          cases hm2
      · rw [decide_eq_true_eq]
        constructor
        · intro h
          exact ⟨y, m, yv, mv, rfl, hy, hm, h.1, h.2.1, h.2.2.1, h.2.2.2⟩
        · rintro ⟨y2, m2, yv2, mv2, heq, hy2, hm2, h1, h2, h3, h4⟩
          simp only [List.cons.injEq, and_true] at heq
          obtain ⟨rfl, rfl⟩ := heq
          rw [hy] at hy2
          rw [hm] at hm2
          cases hy2
          cases hm2
          exact ⟨h1, h2, h3, h4⟩
  · show false = true ↔ _
    constructor
    · intro h
      cases h
    · rintro ⟨y2, m2, yv, mv, heq, _⟩
      cases heq

theorem isPySpace_of_digit {c : Char} (h : c.isDigit = true) : isPySpace c = false := by
  simp only [Char.isDigit, Bool.and_eq_true, decide_eq_true_eq] at h
  have hn1 : 48 ≤ c.toNat := h.1
  have hn2 : c.toNat ≤ 57 := h.2
  unfold isPySpace
  simp only [Bool.or_eq_false_iff, decide_eq_false_iff_not]
  omega

theorem dropWhile_eq_self_of_head {l : List Char}
    (h : ∀ c, l.head? = some c → isPySpace c = false) :
    l.dropWhile isPySpace = l := by
  cases l with
  | nil => rfl
  | cons a as =>
      rw [List.dropWhile_cons, h a rfl]
      simp

theorem stripChars_eq_self {l : List Char}
    (hhead : ∀ c, l.head? = some c → isPySpace c = false)
    (hlast : ∀ c, l.getLast? = some c → isPySpace c = false) :
    stripChars l = l := by
  unfold stripChars
  rw [dropWhile_eq_self_of_head hhead]
  rw [dropWhile_eq_self_of_head (fun c hc => hlast c (by rwa [← List.head?_reverse]))]
  exact List.reverse_reverse l

theorem getLast?_append_right {α : Type} {l2 : List α} (h : l2 ≠ []) :
    ∀ l1 : List α, (l1 ++ l2).getLast? = l2.getLast? := by
  obtain ⟨x, xs, rfl⟩ := List.exists_cons_of_ne_nil h
  intro l1
  induction l1 with
  | nil => rfl
  | cons a as ih =>
      show (a :: (as ++ x :: xs)).getLast? = _
      obtain ⟨b, bs, hbs⟩ : ∃ b bs, as ++ x :: xs = b :: bs := by
        cases hx : as ++ x :: xs with
        | nil => exact absurd hx (by simp)
        | cons b bs => exact ⟨b, bs, rfl⟩
      rw [hbs, List.getLast?_cons_cons, ← hbs, ih]

theorem stamp_data (y m d : Nat) : (pyColStr (.stamp y m d)).data
    = ((natDigits y ++ ('-' :: pad2 m)) ++ ('-' :: pad2 d)) ++ " 00:00:00".data := rfl

theorem stamp_head (y m d : Nat) :
    ∀ c, (pyColStr (.stamp y m d)).data.head? = some c → isPySpace c = false := by
  intro c hc
  rw [stamp_data] at hc
  obtain ⟨h0, t0, hnd⟩ := List.exists_cons_of_ne_nil (natDigits_ne_nil y)
  rw [hnd] at hc
  simp only [List.cons_append, List.head?_cons, Option.some.injEq] at hc
  rw [← hc]
  exact isPySpace_of_digit
    (mem_natDigits_isDigit y h0 (by rw [hnd]; exact List.mem_cons_self _ _))

theorem stamp_last (y m d : Nat) :
    ∀ c, (pyColStr (.stamp y m d)).data.getLast? = some c → isPySpace c = false := by
  intro c hc
  rw [stamp_data] at hc
  rw [getLast?_append_right (by decide) ((natDigits y ++ ('-' :: pad2 m)) ++ ('-' :: pad2 d))] at hc
  have hc0 : c = '0' := by
    rw [show (" 00:00:00" : String).data.getLast? = some '0' from by decide] at hc
    exact ((Option.some.injEq _ _).mp hc).symm
  rw [hc0]
  decide

theorem one_le_pad2_length (n : Nat) : 1 ≤ (pad2 n).length := by
  unfold pad2
  split
  · simp
  · exact List.length_pos.mpr (natDigits_ne_nil n)

theorem stamp_strip (y m d : Nat) :
    (pyStrip (pyColStr (.stamp y m d))).data = (pyColStr (.stamp y m d)).data := by
  show stripChars (pyColStr (.stamp y m d)).data = _
  exact stripChars_eq_self (stamp_head y m d) (stamp_last y m d)

theorem stamp_length (y m d : Nat) : 14 ≤ (pyColStr (.stamp y m d)).data.length := by
  rw [stamp_data]
  simp only [List.length_append, List.length_cons]
  have h1 : 1 ≤ (natDigits y).length := List.length_pos.mpr (natDigits_ne_nil y)
  have h2 : 1 ≤ (pad2 m).length := one_le_pad2_length m
  have h3 : 1 ≤ (pad2 d).length := one_le_pad2_length d
  have h4 : (" 00:00:00" : String).data.length = 9 := by decide
  omega

/-- Modelled from the claim's wording, for the refinement comparison of C6:
a label of exactly 7 characters of the form `YYYY-MM` -- four digits, a
hyphen, two digits -- with the year in [2000, 2030] and the month in
[1, 12]. -/
def specMonthLabel (s : String) : Bool :=
  match s.data with
  | [y1, y2, y3, y4, h, m1, m2] =>
    y1.isDigit && y2.isDigit && y3.isDigit && y4.isDigit && h == '-'
      && m1.isDigit && m2.isDigit
      && decide (2000 ≤ digitsVal [y1, y2, y3, y4]) && decide (digitsVal [y1, y2, y3, y4] ≤ 2030)
      && decide (1 ≤ digitsVal [m1, m2]) && decide (digitsVal [m1, m2] ≤ 12)
  | _ => false

/-- C6 counterexample: the code classifies the 7-character label `"2018- 1"`
as a month column (Python `int(' 1')` tolerates the inner space), although
it is not of the form `YYYY-MM` and, being a plain string, has no calendar
year/month attributes -- so the claim's "if and only if" fails. -/
theorem claim_C6_counterexample :
    is_month_column (.text "2018- 1") = true
      ∧ specMonthLabel "2018- 1" = false :=
  ⟨by decide, by decide⟩

/-- C6 (amended): classification never raises (it is a total function), a
parsed-date (Timestamp) column is always a month column, and a string label
is a month column iff its stripped text has exactly 7 characters with `'-'`
at index 4 and splits on `'-'` into exactly two parts that Python's `int`
accepts (tolerating inner whitespace and an explicit sign) with year in
[2000, 2030] and month in [1, 12]; the claim's five examples hold:
`2018-01` yes, `2018-13`, `18-01`, `1999-01`, `2031-01` no. -/
theorem claim_C6_month_column :
    (∀ s : String, is_month_column (.text s) = true ↔
        ((pyStrip s).data.length = 7 ∧ (pyStrip s).data.getD 4 ' ' = '-'
          ∧ ∃ (y m : List Char) (yv mv : Int),
              splitOnChar '-' (pyStrip s).data = [y, m]
                ∧ pyIntChars y = some yv ∧ pyIntChars m = some mv
                ∧ 2000 ≤ yv ∧ yv ≤ 2030 ∧ 1 ≤ mv ∧ mv ≤ 12))
      ∧ (∀ y m d : Nat, is_month_column (.stamp y m d) = true)
      ∧ is_month_column (.text "2018-01") = true
      ∧ is_month_column (.text "2018-13") = false
      ∧ is_month_column (.text "18-01") = false
      ∧ is_month_column (.text "1999-01") = false
      ∧ is_month_column (.text "2031-01") = false := by
  refine ⟨?_, ?_, by decide, by decide, by decide, by decide, by decide⟩
  · intro s
    show (if ((pyStrip s).data.length = 7 ∧ (pyStrip s).data.getD 4 ' ' = '-')
        then monthLabelCheck (pyStrip s).data
        else false) = true ↔ _
    by_cases hcond : (pyStrip s).data.length = 7 ∧ (pyStrip s).data.getD 4 ' ' = '-'
    · rw [if_pos hcond, monthLabelCheck_iff]
      constructor
      · intro hx
        exact ⟨hcond.1, hcond.2, hx⟩
      · intro hx
        exact hx.2.2
    · rw [if_neg hcond]
      constructor
      · intro h
        cases h
      · intro hx
        exact absurd ⟨hx.1, hx.2.1⟩ hcond
  · intro y m d
    unfold is_month_column
    rw [if_neg]
    intro hcond
    have hlen := hcond.1
    rw [stamp_strip] at hlen
    have := stamp_length y m d
    omega

/-! ### Content-hash claim (C7) -/

/-- The record family for the pigeonhole refutation: a fixed record whose
group code ranges over `"A"`-strings of every length. -/
def hashBaseRec : DataRecord := ⟨"2018-01-01", "", "SMP", "IDA", .finite 1, "SMP_2018.ods", 0⟩

def grupoRec (n : Nat) : DataRecord :=
  { hashBaseRec with grupo_economico := String.mk (List.replicate n 'A') }

/-- The 128-bit digest of a record's content, as an element of a finite type. -/
def digestOf (r : DataRecord) : Fin (256 ^ 16) :=
  md5Packed (utf8Bytes r.hashContent)

/-- C7 counterexample: "changing any one of the five fields changes the
hash" cannot hold -- the group code ranges over infinitely many strings
while MD5 has only `2 ^ 128` digests, so by the pigeonhole principle two
records that differ only in the group code share their `generate_hash`. -/
theorem claim_C7_counterexample :
    ¬ (∀ (r : DataRecord) (g : String), g ≠ r.grupo_economico →
        DataRecord.generate_hash { r with grupo_economico := g }
          ≠ DataRecord.generate_hash r) := by
  intro H
  obtain ⟨a, b, hab, hfab⟩ :=
    Finite.exists_ne_map_eq_of_infinite (fun n : Nat => digestOf (grupoRec n))
  have hhash : DataRecord.generate_hash (grupoRec a)
      = DataRecord.generate_hash (grupoRec b) := md5Hex_eq_of_packed hfab
  have hg : String.mk (List.replicate a 'A') ≠ (grupoRec b).grupo_economico := by
    show String.mk (List.replicate a 'A') ≠ String.mk (List.replicate b 'A')
    intro he
    apply hab
    have hdata : List.replicate a 'A' = List.replicate b 'A' := congrArg String.data he
    simpa using congrArg List.length hdata
  have hrec : { grupoRec b with grupo_economico := String.mk (List.replicate a 'A') }
      = grupoRec a := rfl
  exact H (grupoRec b) (String.mk (List.replicate a 'A')) hg (by rw [hrec, hhash])

/-- C7 (amended): `generate_hash` is a deterministic pure function of
exactly the five fields period, group, service, variable and value --
records agreeing on them hash identically whatever their source file and
source row -- and changing any single one of the five fields changes the
digest input string `period|group|service|variable|value`; only the step
from a changed digest input to a changed 128-bit MD5 digest is weakened,
as the pigeonhole counterexample forces. -/
theorem claim_C7_content_hash :
    (∀ r s : DataRecord, r.ano_mes = s.ano_mes → r.grupo_economico = s.grupo_economico →
        r.servico = s.servico → r.variavel = s.variavel → r.valor = s.valor →
        DataRecord.generate_hash r = DataRecord.generate_hash s)
      ∧ (∀ (r : DataRecord) (v : String), v ≠ r.ano_mes →
          DataRecord.hashContent { r with ano_mes := v } ≠ DataRecord.hashContent r)
      ∧ (∀ (r : DataRecord) (v : String), v ≠ r.grupo_economico →
          DataRecord.hashContent { r with grupo_economico := v } ≠ DataRecord.hashContent r)
      ∧ (∀ (r : DataRecord) (v : String), v ≠ r.servico →
          DataRecord.hashContent { r with servico := v } ≠ DataRecord.hashContent r)
      ∧ (∀ (r : DataRecord) (v : String), v ≠ r.variavel →
          DataRecord.hashContent { r with variavel := v } ≠ DataRecord.hashContent r)
      ∧ (∀ (r : DataRecord) (v : PyFloat), v ≠ r.valor →
          DataRecord.hashContent { r with valor := v } ≠ DataRecord.hashContent r) := by
  refine ⟨?_, fun r v h => hashContent_ano_mes h, fun r v h => hashContent_grupo h,
    fun r v h => hashContent_servico h, fun r v h => hashContent_variavel h,
    fun r v h => hashContent_valor h⟩
  intro r s h1 h2 h3 h4 h5
  unfold DataRecord.generate_hash DataRecord.hashContent
  rw [h1, h2, h3, h4, h5]

/-- Witness for C7 (amended): two records that differ only in source file
and row hash identically; changing the group code changes the digest
input. -/
theorem claim_C7_witness :
    DataRecord.generate_hash ⟨"2018-01-01", "CLARO", "SMP", "IDA", .finite 1, "a.ods", 1⟩
        = DataRecord.generate_hash ⟨"2018-01-01", "CLARO", "SMP", "IDA", .finite 1, "b.ods", 2⟩
      ∧ ("VIVO" : String) ≠ "CLARO"
      ∧ DataRecord.hashContent
          { (⟨"2018-01-01", "CLARO", "SMP", "IDA", .finite 1, "a.ods", 1⟩ : DataRecord)
            with grupo_economico := "VIVO" }
        ≠ DataRecord.hashContent
            ⟨"2018-01-01", "CLARO", "SMP", "IDA", .finite 1, "a.ods", 1⟩ := by
  have h := claim_C7_content_hash
  exact ⟨h.1 _ _ rfl rfl rfl rfl rfl, by decide, h.2.2.1 _ "VIVO" (by decide)⟩

/-! ### Pipeline error-isolation claims (C8) -/

/-- C8 counterexample: a resource whose download fails (the download helper
catches its exception and returns `None`) is skipped by `continue` with NO
entry appended to the run's error list -- the run completes with
`erros = []`, contradicting the claim that a download exception's message
is appended to the error list. -/
theorem claim_C8_counterexample :
    (pipelineRun true true noFail w1db [⟨"SMP 2017", .noDownload⟩] 1).1 = .ok initStats
      ∧ initStats.erros = [] :=
  ⟨by with_unfolding_all decide, rfl⟩

theorem pipelineRun_noflush {fail : DataRecord → Bool} {db : Store}
    {resources : List Resource} {bs : Nat}
    (hbe : (resources.foldl (stepResource fail bs) ⟨initStats, [], db⟩).buffer.isEmpty = true) :
    pipelineRun true true fail db resources bs
      = (.ok (resources.foldl (stepResource fail bs) ⟨initStats, [], db⟩).stats,
         .api :: resources.map (fun r => .download r.titulo)) := by
  show (if (resources.foldl (stepResource fail bs) ⟨initStats, [], db⟩).buffer.isEmpty = true
      then ((.ok (resources.foldl (stepResource fail bs) ⟨initStats, [], db⟩).stats,
        .api :: resources.map (fun r => .download r.titulo))
          : Except String RunStats × List NetEvent)
      else
        match (load fail (resources.foldl (stepResource fail bs) ⟨initStats, [], db⟩).store
            (resources.foldl (stepResource fail bs) ⟨initStats, [], db⟩).buffer bs).res with
        | .ok n =>
          (.ok { (resources.foldl (stepResource fail bs) ⟨initStats, [], db⟩).stats with
              registros_carregados :=
                (resources.foldl (stepResource fail bs)
                  ⟨initStats, [], db⟩).stats.registros_carregados + n },
           .api :: resources.map (fun r => .download r.titulo))
        | .error e2 =>
          (.error e2, .api :: resources.map (fun r => .download r.titulo))) = _
  rw [if_pos hbe]

theorem pipelineRun_flush_ok {fail : DataRecord → Bool} {db : Store}
    {resources : List Resource} {bs : Nat} {n : Nat}
    (hbe : (resources.foldl (stepResource fail bs) ⟨initStats, [], db⟩).buffer.isEmpty = false)
    (hload : (load fail (resources.foldl (stepResource fail bs) ⟨initStats, [], db⟩).store
        (resources.foldl (stepResource fail bs) ⟨initStats, [], db⟩).buffer bs).res = .ok n) :
    pipelineRun true true fail db resources bs
      = (.ok { (resources.foldl (stepResource fail bs) ⟨initStats, [], db⟩).stats with
          registros_carregados :=
            (resources.foldl (stepResource fail bs)
              ⟨initStats, [], db⟩).stats.registros_carregados + n },
         .api :: resources.map (fun r => .download r.titulo)) := by
  show (if (resources.foldl (stepResource fail bs) ⟨initStats, [], db⟩).buffer.isEmpty = true
      then ((.ok (resources.foldl (stepResource fail bs) ⟨initStats, [], db⟩).stats,
        .api :: resources.map (fun r => .download r.titulo))
          : Except String RunStats × List NetEvent)
      else
        match (load fail (resources.foldl (stepResource fail bs) ⟨initStats, [], db⟩).store
            (resources.foldl (stepResource fail bs) ⟨initStats, [], db⟩).buffer bs).res with
        | .ok n2 =>
          (.ok { (resources.foldl (stepResource fail bs) ⟨initStats, [], db⟩).stats with
              registros_carregados :=
                (resources.foldl (stepResource fail bs)
                  ⟨initStats, [], db⟩).stats.registros_carregados + n2 },
           .api :: resources.map (fun r => .download r.titulo))
        | .error e2 =>
          (.error e2, .api :: resources.map (fun r => .download r.titulo))) = _
  rw [hbe, hload]
  rfl

theorem pipelineRun_flush_error {fail : DataRecord → Bool} {db : Store}
    {resources : List Resource} {bs : Nat} {e : String}
    (hbe : (resources.foldl (stepResource fail bs) ⟨initStats, [], db⟩).buffer.isEmpty = false)
    (hload : (load fail (resources.foldl (stepResource fail bs) ⟨initStats, [], db⟩).store
        (resources.foldl (stepResource fail bs) ⟨initStats, [], db⟩).buffer bs).res
      = .error e) :
    pipelineRun true true fail db resources bs
      = (.error e, .api :: resources.map (fun r => .download r.titulo)) := by
  show (if (resources.foldl (stepResource fail bs) ⟨initStats, [], db⟩).buffer.isEmpty = true
      then ((.ok (resources.foldl (stepResource fail bs) ⟨initStats, [], db⟩).stats,
        .api :: resources.map (fun r => .download r.titulo))
          : Except String RunStats × List NetEvent)
      else
        match (load fail (resources.foldl (stepResource fail bs) ⟨initStats, [], db⟩).store
            (resources.foldl (stepResource fail bs) ⟨initStats, [], db⟩).buffer bs).res with
        | .ok n2 =>
          (.ok { (resources.foldl (stepResource fail bs) ⟨initStats, [], db⟩).stats with
              registros_carregados :=
                (resources.foldl (stepResource fail bs)
                  ⟨initStats, [], db⟩).stats.registros_carregados + n2 },
           .api :: resources.map (fun r => .download r.titulo))
        | .error e2 =>
          (.error e2, .api :: resources.map (fun r => .download r.titulo))) = _
  rw [hbe, hload]
  rfl

/-- C8 (amended): an exception raised while extracting, transforming, or
mid-run loading a resource is caught, `"Erro ao processar <titulo>: <msg>"`
is appended to the run's error list, and the loop continues with the next
resource (processing a resource list decomposes through every prefix); a
failed download is caught inside the download helper and the resource is
skipped silently, with no error-list entry; the run returns an error if and
only if the final flush of the remaining buffered records fails, and that
error propagates out of `run` unchanged. -/
theorem claim_C8_error_isolation :
    (∀ (fail : DataRecord → Bool) (bs : Nat) (s : LoopState) (t m : String),
        stepResource fail bs s ⟨t, .stepFail m⟩
          = { s with stats := { s.stats with erros := s.stats.erros ++ [errMsg t m] } })
      ∧ (∀ (fail : DataRecord → Bool) (bs : Nat) (s : LoopState) (t : String),
          stepResource fail bs s ⟨t, .noDownload⟩ = s)
      ∧ (∀ (fail : DataRecord → Bool) (bs : Nat) (init : LoopState)
            (xs ys : List Resource),
          (xs ++ ys).foldl (stepResource fail bs) init
            = ys.foldl (stepResource fail bs) (xs.foldl (stepResource fail bs) init))
      ∧ (∀ (fail : DataRecord → Bool) (bs : Nat) (s : LoopState) (t : String)
            (n : Nat) (recs : List DataRecord) (e : String),
          bs * 5 ≤ (s.buffer ++ recs).length →
          (load fail s.store (s.buffer ++ recs) bs).res = .error e →
          stepResource fail bs s ⟨t, .ok n recs⟩
            = { stats := { s.stats with
                  registros_extraidos := s.stats.registros_extraidos + n,
                  registros_transformados := s.stats.registros_transformados + recs.length,
                  erros := s.stats.erros ++ [errMsg t e] },
                buffer := s.buffer ++ recs,
                store := (load fail s.store (s.buffer ++ recs) bs).store })
      ∧ (∀ (fail : DataRecord → Bool) (db : Store) (resources : List Resource)
            (bs : Nat) (e : String),
          (pipelineRun true true fail db resources bs).1 = .error e →
            (resources.foldl (stepResource fail bs) ⟨initStats, [], db⟩).buffer.isEmpty = false
              ∧ (load fail (resources.foldl (stepResource fail bs) ⟨initStats, [], db⟩).store
                  (resources.foldl (stepResource fail bs) ⟨initStats, [], db⟩).buffer bs).res
                = .error e)
      ∧ (∀ (fail : DataRecord → Bool) (db : Store) (resources : List Resource)
            (bs : Nat) (e : String),
          (resources.foldl (stepResource fail bs) ⟨initStats, [], db⟩).buffer.isEmpty = false →
          (load fail (resources.foldl (stepResource fail bs) ⟨initStats, [], db⟩).store
              (resources.foldl (stepResource fail bs) ⟨initStats, [], db⟩).buffer bs).res
            = .error e →
          (pipelineRun true true fail db resources bs).1 = .error e) := by
  refine ⟨fun fail bs s t m => rfl, fun fail bs s t => rfl,
    fun fail bs init xs ys => List.foldl_append (stepResource fail bs) init xs ys, ?_, ?_, ?_⟩
  · intro fail bs s t n recs e hlen hres
    show (if bs * 5 ≤ (s.buffer ++ recs).length then _ else _) = _
    rw [if_pos hlen]
    show (match (load fail s.store (s.buffer ++ recs) bs).res with
      | Except.ok ld => LoopState.mk { s.stats with
            registros_extraidos := s.stats.registros_extraidos + n,
            registros_transformados := s.stats.registros_transformados + recs.length,
            registros_carregados := s.stats.registros_carregados + ld,
            recursos_processados := s.stats.recursos_processados + 1 }
          [] (load fail s.store (s.buffer ++ recs) bs).store
      | Except.error e2 => LoopState.mk { s.stats with
            registros_extraidos := s.stats.registros_extraidos + n,
            registros_transformados := s.stats.registros_transformados + recs.length,
            erros := (s.stats.erros ++ [errMsg t e2] : List String) }
          (s.buffer ++ recs) (load fail s.store (s.buffer ++ recs) bs).store) = _
    rw [hres]
  · intro fail db resources bs e hrun
    rcases hbe : (resources.foldl (stepResource fail bs)
        ⟨initStats, [], db⟩).buffer.isEmpty with _ | _
    · refine ⟨rfl, ?_⟩
      rcases hload : (load fail (resources.foldl (stepResource fail bs)
          ⟨initStats, [], db⟩).store
          (resources.foldl (stepResource fail bs) ⟨initStats, [], db⟩).buffer bs).res
        with e2 | n2
      · rw [pipelineRun_flush_error hbe hload] at hrun
        simp only at hrun
        have he2 : e2 = e := by injection hrun
        rw [he2]
      · rw [pipelineRun_flush_ok hbe hload] at hrun
        cases hrun
    · rw [pipelineRun_noflush hbe] at hrun
      cases hrun
  · intro fail db resources bs e hbe hload
    rw [pipelineRun_flush_error hbe hload]

/-- Fixtures for the C8 witness: a buffer that reaches the flush threshold
with a failing record inside, and a single resource whose records make the
final flush fail. -/
def c8recs : List DataRecord := [c2rec1, c2rec2, c2rec1, c2rec1, c2rec1]

def c8res1 : Resource := ⟨"SMP 2017", .ok 2 [c2rec1, c2rec2]⟩

def c8state : LoopState := ⟨initStats, [], c2db⟩

set_option maxRecDepth 400000 in
/-- Witness for C8 (amended): a concrete mid-run load failure is recorded in
the error list with the loop state kept, and a concrete final-flush failure
propagates out of the run. -/
theorem claim_C8_witness :
    (1 * 5 ≤ (c8state.buffer ++ c8recs).length
        ∧ (load c2fail c8state.store (c8state.buffer ++ c8recs) 1).res = .error "db error"
        ∧ stepResource c2fail 1 c8state ⟨"SMP 2017", .ok 5 c8recs⟩
            = { stats := { c8state.stats with
                  registros_extraidos := c8state.stats.registros_extraidos + 5,
                  registros_transformados :=
                    c8state.stats.registros_transformados + c8recs.length,
                  erros := c8state.stats.erros ++ [errMsg "SMP 2017" "db error"] },
                buffer := c8state.buffer ++ c8recs,
                store := (load c2fail c8state.store (c8state.buffer ++ c8recs) 1).store })
      ∧ (([c8res1].foldl (stepResource c2fail 1) ⟨initStats, [], c2db⟩).buffer.isEmpty = false
        ∧ (load c2fail ([c8res1].foldl (stepResource c2fail 1) ⟨initStats, [], c2db⟩).store
            ([c8res1].foldl (stepResource c2fail 1) ⟨initStats, [], c2db⟩).buffer 1).res
          = .error "db error"
        ∧ (pipelineRun true true c2fail c2db [c8res1] 1).1 = .error "db error") := by
  have h := claim_C8_error_isolation
  refine ⟨⟨by decide, by with_unfolding_all decide, ?_⟩,
    ⟨by with_unfolding_all decide, by with_unfolding_all decide, ?_⟩⟩
  · exact h.2.2.2.1 c2fail 1 c8state "SMP 2017" 5 c8recs "db error"
      (by decide) (by with_unfolding_all decide)
  · exact h.2.2.2.2.2 c2fail c2db [c8res1] 1 "db error"
      (by with_unfolding_all decide) (by with_unfolding_all decide)

end IDA
